import Mathlib

/-!
Verification of the ClinicalGenius batch-execution pipeline.

Shallow embedding of:
  * `src/utils/json_utils.py`   (`extract_json_from_llm_response`, `flatten_nested_dict`)
  * `src/utils/csv_utils.py`    (`generate_structured_csv`)
  * `src/prompt_engine.py`      (`PromptEngine.extract_variables`, `PromptEngine.build_prompt`)
  * `src/services/batch_execution_service.py` (`run_batch_execution`)
  * `src/routes/analysis_routes.py` (`get_batch_progress`, `get_batch_status`)

Modelling conventions:
  * Python strings are Lean `String` (operated on through `String.data : List Char`).
  * Python's `json` standard library (`json.loads` / `json.dumps`) is modelled by an
    executable JSON value type `Json`, a recursive-descent parser `loads` and a
    serializer `dumps`.  The model covers the JSON fragment relevant to the claims:
    objects, arrays, strings (with backslash escapes), numeric tokens (kept as their
    source text), `true`/`false`/`null`; `json.dumps` default separators (", ", ": ")
    are reproduced.  Numbers are kept as raw tokens so that serialization is exact.
  * Dataset records are modelled as association lists `List (String × String)`;
    `record.get(k)` returning `None` for a missing key is `Option String`.
    Python truthiness of the involved values (`None` and `""` falsy) is modelled
    explicitly (`pyOrS`).
  * SQLite tables are modelled as the values the orchestrator reads/writes:
    the `batches` row, the `dataset_configs.record_id_field` cell, the `prompts`
    row, and the `execution_history` row for the batch (the table's primary key is
    `batch_id`, so at most one row per batch — an `Option HistoryRow`).
  * The LLM client is a function `String → GenResult` (normal return or raised
    exception message), the only raise point of the per-row path.
-/

namespace ClinicalGenius

/-! ## Python value helpers -/

/-- Model of the Python expression `v or d` where `v` is `record.get(...)`
(`None` and the empty string are falsy). -/
def pyOrS (v : Option String) (d : String) : String :=
  match v with
  | some s => if s = "" then d else s
  | none => d

/-- A dataset record: field name to value.  `record.get(k)` is `recordGet`. -/
def Record := List (String × String)

/-- Model of Python `record.get(k)` (`None` when the key is absent). -/
def recordGet (r : Record) (k : String) : Option String :=
  (List.find? (fun p => p.1 = k) r).map (fun p => p.2)

/-- The whitespace characters stripped by Python `str.strip()` (the ASCII
ones; the model does not cover further Unicode whitespace). -/
def pyStripWs (c : Char) : Bool :=
  c = ' ' || c = '\t' || c = '\n' || c = '\r' || c = '\x0b' || c = '\x0c'

/-- Model of Python `str.strip()`: drop leading and trailing whitespace. -/
def pyStrip (s : String) : String :=
  ⟨(((s.data.dropWhile pyStripWs).reverse).dropWhile pyStripWs).reverse⟩

/-! ## JSON values (model of the Python `json` library) -/

/-- JSON values.  Numeric literals are kept as their token text (`num "1"`,
`num "-2.5"`), which makes re-serialization exact. -/
inductive Json where
  | null : Json
  | bool : Bool → Json
  | num : String → Json
  | str : String → Json
  | arr : List Json → Json
  | obj : List (String × Json) → Json

/-- Model of Python dict insertion `d[k] = v`: an existing key keeps its
position and takes the new value, a new key is appended. -/
def pyDictInsert (d : List (String × Json)) (k : String) (v : Json) :
    List (String × Json) :=
  if d.any (fun p => p.1 = k) then
    d.map (fun p => if p.1 = k then (k, v) else p)
  else d ++ [(k, v)]

/-- Model of Python `dict(items)`: sequential insertion. -/
def pyDict (items : List (String × Json)) : List (String × Json) :=
  items.foldl (fun d kv => pyDictInsert d kv.1 kv.2) []

/-- Model of Python `d.get(k)` on a dict represented as an association list. -/
def dictGet (d : List (String × Json)) (k : String) : Option Json :=
  (List.find? (fun p => p.1 = k) d).map (fun p => p.2)

/-- `json.dumps` escaping for the characters the model covers
(quote and backslash). -/
def escapeChar (c : Char) : List Char :=
  if c = '"' then ['\\', '"']
  else if c = '\\' then ['\\', '\\']
  else [c]

/-- Escape a character list for embedding in a JSON string literal. -/
def escapeData : List Char → List Char
  | [] => []
  | c :: r => escapeChar c ++ escapeData r

mutual
/-- Model of `json.dumps` (default separators `", "` and `": "`), producing
the character list of the output. -/
def dumpsData : Json → List Char
  | Json.null => ['n', 'u', 'l', 'l']
  | Json.bool b => if b then ['t', 'r', 'u', 'e'] else ['f', 'a', 'l', 's', 'e']
  | Json.num s => s.data
  | Json.str s => '"' :: escapeData s.data ++ ['"']
  | Json.arr xs => '[' :: dumpsListData xs ++ [']']
  | Json.obj m => '{' :: dumpsMembersData m ++ ['}']

/-- Serialize array elements, separated by `", "`. -/
def dumpsListData : List Json → List Char
  | [] => []
  | [x] => dumpsData x
  | x :: y :: xs => dumpsData x ++ ',' :: ' ' :: dumpsListData (y :: xs)

/-- Serialize object members, `"key": value` separated by `", "`. -/
def dumpsMembersData : List (String × Json) → List Char
  | [] => []
  | [(k, v)] => '"' :: escapeData k.data ++ '"' :: ':' :: ' ' :: dumpsData v
  | (k, v) :: m :: ms =>
      '"' :: escapeData k.data ++ '"' :: ':' :: ' ' :: dumpsData v ++
        ',' :: ' ' :: dumpsMembersData (m :: ms)
end

/-- Model of `json.dumps` at `String` level. -/
def dumps (v : Json) : String := ⟨dumpsData v⟩

/-! ## JSON parser (model of `json.loads`) -/

/-- JSON whitespace characters. -/
def isWsChar (c : Char) : Bool := c = ' ' || c = '\t' || c = '\n' || c = '\r'

/-- Skip leading whitespace. -/
def skipWs (cs : List Char) : List Char := cs.dropWhile isWsChar

/-- Characters a numeric token may contain. -/
def isNumChar (c : Char) : Bool :=
  c.isDigit || c = '-' || c = '+' || c = '.' || c = 'e' || c = 'E'

/-- Decode one backslash escape. -/
def unescapeChar (c : Char) : Option Char :=
  if c = '"' then some '"'
  else if c = '\\' then some '\\'
  else if c = '/' then some '/'
  else if c = 'n' then some '\n'
  else if c = 't' then some '\t'
  else if c = 'r' then some '\r'
  else none

/-- Parse the body of a JSON string literal (after the opening quote),
returning the decoded characters and the rest of the input. -/
def parseStrBody : List Char → Option (List Char × List Char)
  | [] => none
  | '"' :: rest => some ([], rest)
  | '\\' :: [] => none
  | '\\' :: e :: rest2 =>
    (match unescapeChar e with
     | none => none
     | some ec =>
       match parseStrBody rest2 with
       | none => none
       | some (s, r) => some (ec :: s, r))
  | c :: rest =>
    (match parseStrBody rest with
     | none => none
     | some (s, r) => some (c :: s, r))

mutual
/-- Recursive-descent JSON value parser with fuel (every recursive call
decrements the fuel, keeping the definitions structurally recursive and
hence computable by the kernel). -/
def parseVal : Nat → List Char → Option (Json × List Char)
  | 0, _ => none
  | Nat.succ f, cs =>
    match skipWs cs with
    | [] => none
    | c :: rest =>
      if c = '"' then
        match parseStrBody rest with
        | none => none
        | some (s, r) => some (Json.str ⟨s⟩, r)
      else if c = 'n' then
        match rest with
        | 'u' :: 'l' :: 'l' :: r => some (Json.null, r)
        | _ => none
      else if c = 't' then
        match rest with
        | 'r' :: 'u' :: 'e' :: r => some (Json.bool true, r)
        | _ => none
      else if c = 'f' then
        match rest with
        | 'a' :: 'l' :: 's' :: 'e' :: r => some (Json.bool false, r)
        | _ => none
      else if c.isDigit || c = '-' then
        let tok := (c :: rest).takeWhile isNumChar
        some (Json.num ⟨tok⟩, (c :: rest).drop tok.length)
      else if c = '[' then
        match skipWs rest with
        | ']' :: r => some (Json.arr [], r)
        | cs2 =>
          match parseItemsLoop f cs2 with
          | none => none
          | some (vs, r) => some (Json.arr vs, r)
      else if c = '{' then
        match skipWs rest with
        | '}' :: r => some (Json.obj [], r)
        | cs2 =>
          match parseMembersLoop f cs2 with
          | none => none
          | some (m, r) => some (Json.obj (pyDict m), r)
      else none

/-- Parse one-or-more array elements separated by `,`, ended by `]`. -/
def parseItemsLoop : Nat → List Char → Option (List Json × List Char)
  | 0, _ => none
  | Nat.succ f, cs =>
    match parseVal f cs with
    | none => none
    | some (v, r) =>
      match skipWs r with
      | ']' :: r2 => some ([v], r2)
      | ',' :: r2 =>
        (match parseItemsLoop f r2 with
         | none => none
         | some (vs, rr) => some (v :: vs, rr))
      | _ => none

/-- Parse one-or-more object members separated by `,`, ended by `}`. -/
def parseMembersLoop : Nat → List Char → Option (List (String × Json) × List Char)
  | 0, _ => none
  | Nat.succ f, cs =>
    match skipWs cs with
    | '"' :: rest =>
      (match parseStrBody rest with
       | none => none
       | some (k, r) =>
         match skipWs r with
         | ':' :: r2 =>
           (match parseVal f r2 with
            | none => none
            | some (v, r3) =>
              match skipWs r3 with
              | '}' :: r4 => some ([(⟨k⟩, v)], r4)
              | ',' :: r4 =>
                (match parseMembersLoop f r4 with
                 | none => none
                 | some (m, rr) => some ((⟨k⟩, v) :: m, rr))
              | _ => none)
         | _ => none)
    | _ => none
end

/-- Model of `json.loads`: parse a complete document (trailing data other
than whitespace is an error, as in Python). -/
def loads (s : String) : Option Json :=
  match parseVal (s.length + 1) s.data with
  | none => none
  | some (v, rest) => if skipWs rest = [] then some v else none

/-! ## Well-formedness of JSON values (what `loads` can produce / what the
round-trip through `dumps` needs): numeric tokens are nonempty runs of
numeric characters starting with a digit or `-`, and object keys are
distinct at every level. -/

/-- A valid numeric token. -/
def numTokenOK (s : String) : Bool :=
  match s.data with
  | [] => false
  | c :: rest => (c.isDigit || c = '-') && (c :: rest).all isNumChar

mutual
/-- Well-formed JSON value (see section header). -/
def wfb : Json → Bool
  | Json.null => true
  | Json.bool _ => true
  | Json.num s => numTokenOK s
  | Json.str _ => true
  | Json.arr xs => wfbL xs
  | Json.obj m => wfbM m && (m.map Prod.fst).Nodup
def wfbL : List Json → Bool
  | [] => true
  | x :: xs => wfb x && wfbL xs
def wfbM : List (String × Json) → Bool
  | [] => true
  | (_, v) :: m => wfb v && wfbM m
end

mutual
/-- Parser fuel sufficient for a value (used to discharge the fuel bound in
the `loads`/`dumps` round trip). -/
def jfuel : Json → Nat
  | Json.arr xs => jfuelL xs + 1
  | Json.obj m => jfuelM m + 1
  | _ => 1
def jfuelL : List Json → Nat
  | [] => 0
  | x :: xs => jfuel x + 1 + jfuelL xs
def jfuelM : List (String × Json) → Nat
  | [] => 0
  | (_, v) :: m => jfuel v + 1 + jfuelM m
end

/-! ## `extract_json_from_llm_response` (src/utils/json_utils.py) -/

/-- The eleven JSON-Schema metadata keys stripped by
`extract_json_from_llm_response` and excluded from CSV columns by
`generate_structured_csv`. -/
def schemaFields : List String :=
  ["$schema", "type", "properties", "required", "title", "description",
   "definitions", "additionalProperties", "$id", "$ref", "items"]

/-- Index of the last occurrence of `c` (model of Python `str.rfind`,
`none` for `-1`). -/
def rfindIdx (cs : List Char) (c : Char) : Option Nat :=
  match cs with
  | [] => none
  | a :: rest =>
    match rfindIdx rest c with
    | some i => some (i + 1)
    | none => if a = c then some 0 else none

/-- The backward scan of `extract_json_from_llm_response`: the input is the
reversed prefix of the response ending at the last `}`.  The counter is
incremented on `}` and decremented on `{`; when it returns to zero at a `{`
the result is that brace's index in the original string (the length of the
not-yet-scanned part). -/
def scanBack : List Char → Int → Option Nat
  | [], _ => none
  | c :: rest, depth =>
    if c = '}' then scanBack rest (depth + 1)
    else if c = '{' then
      if depth - 1 = 0 then some rest.length else scanBack rest (depth - 1)
    else scanBack rest depth

/-- Remove the JSON-Schema metadata keys from a top-level object
(the dict comprehension in `extract_json_from_llm_response`); any other
value is left unchanged. -/
def removeSchemaFields : Json → Json
  | Json.obj m => Json.obj (m.filter (fun kv => !schemaFields.contains kv.1))
  | v => v

/-- The post-scan step of `extract_json_from_llm_response`: slice the
candidate, parse it, strip the metadata keys and re-serialize on success,
return the raw candidate on parse failure.
A successful parse of a candidate that starts at `{` is always an object, so
the non-object parse branch (which in Python would raise on `.items()`) is
unreachable; it is modelled as returning the candidate. -/
def extractAfterScan (pre : List Char) (i : Nat) : String :=
  let json_str := pre.drop i
  match loads ⟨json_str⟩ with
  | some (Json.obj m) =>
      ⟨dumpsData (Json.obj (m.filter (fun kv => !schemaFields.contains kv.1)))⟩
  | some _ => ⟨json_str⟩
  | none => ⟨json_str⟩

/-- The backward-scan step of `extract_json_from_llm_response`: scan the
prefix ending at the last `}` backwards; no balancing `{` means the stripped
original is returned. -/
def extractAtBrace (response : String) (last_brace : Nat) : String :=
  match scanBack ((response.data.take (last_brace + 1)).reverse) 0 with
  | none => pyStrip response
  | some i => extractAfterScan (response.data.take (last_brace + 1)) i

/-- Shallow embedding of `extract_json_from_llm_response`
(src/utils/json_utils.py lines 7–51): find the last `}`; scan backward to
the depth-balancing `{`; on success parse the candidate substring, strip the
metadata keys, re-serialize; if parsing fails return the raw candidate; if
no `}` or no balancing `{` exists, return the stripped input. -/
def extract_json_from_llm_response (response : String) : String :=
  match rfindIdx response.data '}' with
  | none => pyStrip response
  | some last_brace => extractAtBrace response last_brace

/-! ## `flatten_nested_dict` (src/utils/json_utils.py lines 54–85) -/

/-- Python `str()` applied to a JSON-derived value (the CSV writer's cell
conversion and the `str(response)` fallback).  Lists and dicts never reach
this conversion in the modelled paths (they are flattened or serialized
first); for completeness they render as their JSON text. -/
def pyStr : Json → String
  | Json.null => "None"
  | Json.bool b => if b then "True" else "False"
  | Json.num s => s
  | Json.str s => s
  | v => dumps v

mutual
/-- Iterate the members of a dict, flattening each value
(the item loop of `flatten_nested_dict`). -/
def flattenPairs : List (String × Json) → String → List (String × Json)
  | [], _ => []
  | (k, v) :: rest, parent =>
    flattenValue v (if parent = "" then k else parent ++ "." ++ k) ++
      flattenPairs rest parent

/-- The items contributed by one value of `flatten_nested_dict`: a nested
dict recurses (through its own `dict(items)`), a list is serialized with
`json.dumps`, anything else is kept as-is. -/
def flattenValue : Json → String → List (String × Json)
  | Json.obj kvs, new_key => pyDict (flattenPairs kvs new_key)
  | Json.arr xs, new_key => [(new_key, Json.str (dumps (Json.arr xs)))]
  | w, new_key => [(new_key, w)]
end

/-- Shallow embedding of `flatten_nested_dict`: nested dicts become
dot-joined keys, list values are serialized with `json.dumps`, and each
level's item list goes through `dict(items)` (`pyDict`). -/
def flatten_nested_dict (obj : Json) (parent_key : String) : List (String × Json) :=
  match obj with
  | Json.obj kvs => pyDict (flattenPairs kvs parent_key)
  | v => pyDict [(parent_key, v)]

/-! ## `generate_structured_csv` (src/utils/csv_utils.py) -/

/-- One element of the `results` list as consumed by
`generate_structured_csv`: the record identifier and the response value. -/
structure CsvResult where
  record_id : String
  response : Json

/-- Render one CSV cell: a missing field defaults to `''`; `None` renders
as `''`; anything else via `str()`. -/
def cellStr (v : Option Json) : String :=
  match v with
  | none => ""
  | some Json.null => ""
  | some v => pyStr v

/-- The flattened response of one result: a dict response is flattened,
anything else becomes a single `raw_response` field holding `str(response)`. -/
def flattenResult (response : Json) : List (String × Json) :=
  match response with
  | Json.obj kvs => flatten_nested_dict (Json.obj kvs) ""
  | v => [("raw_response", Json.str (pyStr v))]

/-- Code-point comparison of character lists: the model of Python string
comparison (`sorted` orders strings lexicographically by code point). -/
def charListLe : List Char → List Char → Bool
  | [], _ => true
  | _ :: _, [] => false
  | a :: as, b :: bs =>
    if a = b then charListLe as bs else decide (a.toNat < b.toNat)

/-- Python string `<=` (code-point lexicographic). -/
def strLe (a b : String) : Bool := charListLe a.data b.data

/-- Collect the union of flattened field names over all results, excluding
the JSON-Schema metadata keys, in first-seen order (the `all_fields` set of
`generate_structured_csv`; the subsequent sort makes the collection order
irrelevant). -/
def collectFields (frs : List (List (String × Json))) : List String :=
  frs.foldl
    (fun acc fr =>
      fr.foldl
        (fun acc2 kv =>
          if schemaFields.contains kv.1 || acc2.contains kv.1 then acc2
          else acc2 ++ [kv.1])
        acc)
    []

/-- `sorted(all_fields)`: Python sorts strings by code point, matching
Lean's lexicographic `≤` on `String`. -/
def sortedFields (frs : List (List (String × Json))) : List String :=
  (collectFields frs).insertionSort (fun a b => strLe a b = true)

/-- The CSV header's first cell: the record-ID field name if truthy,
else `"Record ID"`. -/
def recordIdHeader (record_id_field : Option String) : String :=
  match record_id_field with
  | some s => if s = "" then "Record ID" else s
  | none => "Record ID"

/-- Shallow embedding of `generate_structured_csv` at the row level: the
list of rows (header first), each row a list of cells.  The `csv.writer`
serialization of rows to quoted text is abstracted away; the claims are
about header composition and cell counts.  The `dataset_name` / `batch_name`
arguments of the Python function are unused there and omitted here. -/
def generate_structured_csv (results : List CsvResult)
    (record_id_field : Option String) : List (List String) :=
  let flattened_results := results.map (fun r => (r.record_id, flattenResult r.response))
  let sorted_fields := sortedFields (flattened_results.map (fun p => p.2))
  let header := recordIdHeader record_id_field :: sorted_fields
  let rows := flattened_results.map
    (fun p => p.1 :: sorted_fields.map (fun f => cellStr (dictGet p.2 f)))
  header :: rows

/-! ## Prompt engine (src/prompt_engine.py) -/

/-- Model of `re.findall(r'\\{\\{([^}]+)\\}\\}', template)` followed by
`.strip()` of each capture: scan left to right; at `{{`, the capture is the
maximal nonempty run of non-`}` characters, which must be followed by `}}`;
on a failed match the scanner advances one character.  The fuel argument
(one more than the remaining input length suffices, since every step
consumes at least one character) keeps the recursion structural, so the
function evaluates by kernel reduction. -/
def findallVarsF : Nat → List Char → List String
  | 0, _ => []
  | Nat.succ f, cs =>
    match cs with
    | '{' :: '{' :: rest =>
      (match rest.drop ((rest.takeWhile (fun c => c ≠ '}')).length) with
       | '}' :: '}' :: rest2 =>
         if rest.takeWhile (fun c => c ≠ '}') = [] then
           findallVarsF f ('{' :: rest)
         else
           pyStrip ⟨rest.takeWhile (fun c => c ≠ '}')⟩ :: findallVarsF f rest2
       | _ => findallVarsF f ('{' :: rest))
    | _ :: rest => findallVarsF f rest
    | [] => []

/-- Shallow embedding of `PromptEngine.extract_variables`
(src/prompt_engine.py lines 43–54). -/
def extract_variables (template : String) : List String :=
  findallVarsF (template.length + 1) template.data

/-- The replacement text of `PromptEngine.build_prompt.replace_variable`:
the record's value for the (stripped) name, or `[name: not provided]` when
the value is absent or empty. -/
def replaceVariable (record : Record) (name : List Char) : String :=
  let field_name : String := pyStrip ⟨name⟩
  match recordGet record field_name with
  | none => "[" ++ field_name ++ ": not provided]"
  | some v => if v = "" then "[" ++ field_name ++ ": not provided]" else v

/-- Model of `re.sub` with the placeholder pattern: matched placeholders are
replaced, everything else is copied. -/
def buildPromptAux (record : Record) : List Char → List Char
  | [] => []
  | '{' :: '{' :: rest =>
    let name := rest.takeWhile (fun c => c ≠ '}')
    (match hm : rest.drop name.length with
     | '}' :: '}' :: rest2 =>
       if name = [] then '{' :: buildPromptAux record ('{' :: rest)
       else (replaceVariable record name).data ++ buildPromptAux record rest2
     | _ => '{' :: buildPromptAux record ('{' :: rest))
  | c :: rest => c :: buildPromptAux record rest
termination_by cs => cs.length
decreasing_by
  · simp
  · have h2 : rest2.length ≤ rest.length := by
      have := congrArg List.length hm
      simp [List.length_drop] at this
      omega
    simp; omega
  · simp
  · simp

/-- Shallow embedding of `PromptEngine.build_prompt`. -/
def build_prompt (template : String) (record : Record) : String :=
  ⟨buildPromptAux record template.data⟩

/-! ## Batch orchestrator (src/services/batch_execution_service.py,
`run_batch_execution`) -/

/-- Outcome of one `lm_client.generate(prompt)` call: a returned text or a
raised exception (its message).  The generate call is the raise point of the
per-row path (rendering and dict lookups cannot raise). -/
inductive GenResult where
  | ok : String → GenResult
  | exn : String → GenResult

/-- One element of the orchestrator's `results` list. -/
structure ResultRow where
  record_id : String
  batch_name : String
  response : Json

/-- Loop configuration: the per-execution values the row loop reads. -/
structure RunCfg where
  record_id_field : Option String
  batch_name : String
  template : String
  response_schema : Option String
  generate : String → GenResult

/-- The instruction suffix appended when a response schema is configured. -/
def schemaSuffix (schema : String) : String :=
  "\n\nPlease respond ONLY with valid JSON matching this exact schema:\n" ++
    schema ++ "\n\nDo not include any explanatory text, only the JSON object."

/-- The rendered prompt for one record: the template with placeholders
substituted, plus the schema suffix when `response_schema` is truthy. -/
def renderedPrompt (cfg : RunCfg) (record : Record) : String :=
  let rp := build_prompt cfg.template record
  match cfg.response_schema with
  | some s => if s = "" then rp else rp ++ schemaSuffix s
  | none => rp

/-- The `Id`/`id`/`Name`/`name`/`Record_<idx>` fallback chain used when no
record-ID field is configured (lines 228–236). -/
def fallbackId (record : Record) (idx : Nat) : String :=
  pyOrS (recordGet record "Id")
    (pyOrS (recordGet record "id")
      (pyOrS (recordGet record "Name")
        (pyOrS (recordGet record "name") ("Record_" ++ toString idx))))

/-- Result-identifier resolution of the per-row try branch: with a truthy
configured field, its value or directly `Record_<idx>`; otherwise the
common-field fallback chain. -/
def resolveRecordId (record_id_field : Option String) (record : Record)
    (idx : Nat) : String :=
  match record_id_field with
  | some r =>
    if r = "" then fallbackId record idx
    else pyOrS (recordGet record r) ("Record_" ++ toString idx)
  | none => fallbackId record idx

/-- Result-identifier resolution of the per-row except branch
(lines 264–271): `record.get('Id') or record.get('id') or f'Record_{idx}'`. -/
def exceptRecordId (record : Record) (idx : Nat) : String :=
  pyOrS (recordGet record "Id")
    (pyOrS (recordGet record "id") ("Record_" ++ toString idx))

/-- Process one record (lines 220–271): resolve the identifier, render the
prompt, call the model; parse failure records `{raw_response: text}`, an
exception records `{error: message}`; the Bool is `true` exactly when the
row incremented `success_count`. -/
def processRow (cfg : RunCfg) (idx : Nat) (record : Record) :
    ResultRow × Bool :=
  match cfg.generate (renderedPrompt cfg record) with
  | GenResult.exn msg =>
    ({ record_id := exceptRecordId record idx,
       batch_name := cfg.batch_name,
       response := Json.obj [("error", Json.str msg)] }, false)
  | GenResult.ok text =>
    let record_id := resolveRecordId cfg.record_id_field record idx
    match loads (extract_json_from_llm_response text) with
    | some v =>
      ({ record_id := record_id, batch_name := cfg.batch_name,
         response := v }, true)
    | none =>
      ({ record_id := record_id, batch_name := cfg.batch_name,
         response := Json.obj [("raw_response", Json.str text)] }, false)

/-- The mutable per-execution accumulator (the fields of the `execution`
dict and locals the loop updates after each row). -/
structure LoopAcc where
  results : List ResultRow
  success_count : Nat
  error_count : Nat
  current : Nat

/-- One iteration of the row loop: append the row's result, bump exactly one
counter, set `current` to `idx + 1`. -/
def stepRow (cfg : RunCfg) (idx : Nat) (acc : LoopAcc) (record : Record) :
    LoopAcc :=
  let pr := processRow cfg idx record
  { results := acc.results ++ [pr.1],
    success_count := acc.success_count + (if pr.2 then 1 else 0),
    error_count := acc.error_count + (if pr.2 then 0 else 1),
    current := idx + 1 }

/-- The row loop (`for idx, record in enumerate(all_records)`). -/
def loopAux (cfg : RunCfg) : Nat → LoopAcc → List Record → LoopAcc
  | _, acc, [] => acc
  | idx, acc, r :: rest => loopAux cfg (idx + 1) (stepRow cfg idx acc r) rest

/-- The accumulator at the start of the loop (`current` starts at 0 from
the route's initial execution dict). -/
def initAcc : LoopAcc :=
  { results := [], success_count := 0, error_count := 0, current := 0 }

/-- Run the whole row loop. -/
def processRecords (cfg : RunCfg) (records : List Record) : LoopAcc :=
  loopAux cfg 0 initAcc records

/-- The tracker trace: the accumulator states observable before the first
row, after each row, in order (length = number of rows + 1). -/
def loopTrace (cfg : RunCfg) : Nat → LoopAcc → List Record → List LoopAcc
  | _, acc, [] => [acc]
  | idx, acc, r :: rest =>
    acc :: loopTrace cfg (idx + 1) (stepRow cfg idx acc r) rest

/-- The trace of one execution's row loop from the initial state. -/
def execTrace (cfg : RunCfg) (records : List Record) : List LoopAcc :=
  loopTrace cfg 0 initAcc records

/-- The per-row outcomes in row order (specification-side view of the loop,
proved to characterize it). -/
def rowOuts (cfg : RunCfg) : Nat → List Record → List (ResultRow × Bool)
  | _, [] => []
  | idx, r :: rest => processRow cfg idx r :: rowOuts cfg (idx + 1) rest

/-- The `batches` row as read by the orchestrator. -/
structure BatchRow where
  id : String
  name : String
  dataset_id : String
  dataset_name : String
  dataset_config_id : Option String

/-- The `prompts` row fields the orchestrator uses. -/
structure PromptCfg where
  template : String
  response_schema : Option String

/-- The `execution_history` row for a batch (`batch_id` is the table's
primary key, so at most one row per batch).  `csv_rows` holds the generated
CSV at the row level. -/
structure HistoryRow where
  batch_name : String
  dataset_name : String
  total_records : Nat
  success_count : Nat
  error_count : Nat
  execution_time : Nat
  csv_rows : List (List String)

/-- The observable fields of the `execution` dict when the run ends. -/
structure ExecOut where
  current : Nat
  total : Nat
  success_count : Nat
  error_count : Nat
  complete : Bool
  success : Bool
  error : Option String

/-- The environment one `run_batch_execution` call runs against: what the
database and the external clients return, and the prior history row. -/
structure Env where
  batch : Option BatchRow
  config_row : Option (Option String)
  prompt : Option PromptCfg
  available_fields : List String
  records : List Record
  generate : String → GenResult
  prior_history : Option HistoryRow
  elapsed : Nat

/-- Everything a run of `run_batch_execution` produces that the claims
observe. -/
structure RunOut where
  exec : ExecOut
  results : List ResultRow
  history : Option HistoryRow
  query_fields : List String

/-- A failed execution before any row: counters and progress still zero. -/
def failedExec (msg : String) : ExecOut :=
  { current := 0, total := 0, success_count := 0, error_count := 0,
    complete := true, success := false, error := some msg }

/-- The common ID/Name fields force-included by the orchestrator
(lines 162–165). -/
def commonIdFields : List String := ["Name", "Title", "Id", "RecordId", "ClaimNumber"]

/-- Field resolution (lines 151–180): template fields present in the
dataset, then the available common ID/Name fields not already present, then
the truthy record-ID field if not already present. -/
def resolveQueryFields (template_fields available : List String)
    (record_id_field : Option String) : List String :=
  let query_fields := template_fields.filter (fun f => available.contains f)
  let query_fields := commonIdFields.foldl
    (fun qf f => if available.contains f && !qf.contains f then qf ++ [f] else qf)
    query_fields
  match record_id_field with
  | some r =>
    if r ≠ "" && !query_fields.contains r then query_fields ++ [r]
    else query_fields
  | none => query_fields

/-- Shallow embedding of `run_batch_execution` (lines 80–330).
Modelled faithfully to control flow and data flow:
missing batch fails before touching history; once the batch row is loaded
the batch's `execution_history` row is deleted; a missing `dataset_configs`
row (or absent `dataset_config_id`) leaves `record_id_field = None` and the
run proceeds; a missing prompts row fails; otherwise the row loop runs, the
CSV is generated, and the new history row is written.  Threading,
progress-persistence cadence, the SAQL filter pass-through, the
record-ID-subset scoping of the query (which does not change the queried
field list), and the best-effort CRM upload (whose failure is swallowed)
do not affect the modelled outputs and are omitted.
The record-ID-field resolution of lines 112–121, as a named step of
`run_batch_execution`. -/
def resolvedRecordIdField (batch : BatchRow) (config_row : Option (Option String)) :
    Option String :=
  match batch.dataset_config_id with
  | some cid =>
    if cid = "" then none
    else (match config_row with
          | some rif => rif
          | none => none)
  | none => none

/-- The loop configuration assembled by `run_batch_execution`. -/
def runCfgOf (batch : BatchRow) (prompt : PromptCfg) (rif : Option String)
    (generate : String → GenResult) : RunCfg :=
  { record_id_field := rif, batch_name := batch.name,
    template := prompt.template, response_schema := prompt.response_schema,
    generate := generate }

/-- Shallow embedding of `run_batch_execution` (lines 80–330); see the
comment on `resolvedRecordIdField` for the modelled control flow and the
omitted side effects. -/
def run_batch_execution (env : Env) : RunOut :=
  match env.batch with
  | none =>
    { exec := failedExec "Batch not found", results := [],
      history := env.prior_history, query_fields := [] }
  | some batch =>
    let record_id_field := resolvedRecordIdField batch env.config_row
    -- DELETE FROM execution_history WHERE batch_id = ? (line 125)
    match env.prompt with
    | none =>
      { exec := failedExec "No prompt configuration found", results := [],
        history := none, query_fields := [] }
    | some prompt =>
      let template_fields := extract_variables prompt.template
      let query_fields :=
        resolveQueryFields template_fields env.available_fields record_id_field
      let total := env.records.length
      let cfg := runCfgOf batch prompt record_id_field env.generate
      let acc := processRecords cfg env.records
      let csv := generate_structured_csv
        (acc.results.map (fun r => { record_id := r.record_id, response := r.response }))
        record_id_field
      { exec := { current := acc.current, total := total,
                  success_count := acc.success_count,
                  error_count := acc.error_count,
                  complete := true, success := true, error := none },
        results := acc.results,
        history := some { batch_name := batch.name,
                          dataset_name := batch.dataset_name,
                          total_records := total,
                          success_count := acc.success_count,
                          error_count := acc.error_count,
                          execution_time := env.elapsed,
                          csv_rows := csv },
        query_fields := query_fields }

/-! ## Progress endpoints (src/routes/analysis_routes.py) -/

/-- An entry of the in-memory `batch_executions` map (only the fields the
modelled endpoints inspect). -/
structure ExecEntry where
  batch_id : String

/-- A persisted `execution_status` row (the durable mirror;
`batch_id` is the table's primary key). -/
structure StatusRow where
  batch_id : String
  execution_id : String

/-- The response shape of `get_batch_status`. -/
inductive StatusResp where
  | active : String → ExecEntry → StatusResp
  | persisted : StatusRow → StatusResp
  | notFound : StatusResp

/-- Shallow embedding of `get_batch_progress` (lines 666–673): look the
execution id up in the in-memory map; absent means a 404, with no fallback
to the durable mirror. -/
def get_batch_progress (mem : List (String × ExecEntry))
    (execution_id : String) : Option ExecEntry :=
  (List.find? (fun p => p.1 = execution_id) mem).map (fun p => p.2)

/-- Shallow embedding of `get_batch_status` (lines 626–663): first scan the
in-memory map for an execution of the batch, then fall back to the persisted
`execution_status` row for the batch, else report nothing found. -/
def get_batch_status (mem : List (String × ExecEntry))
    (persisted : List StatusRow) (batch_id : String) : StatusResp :=
  match List.find? (fun p => p.2.batch_id = batch_id) mem with
  | some p => StatusResp.active p.1 p.2
  | none =>
    match List.find? (fun r => r.batch_id = batch_id) persisted with
    | some row => StatusResp.persisted row
    | none => StatusResp.notFound

/-! ## Specification-side definitions used to state claim corrections
(these follow the claim's words, to be compared with the source-derived
definitions above). -/

/-- The field resolution as claim C7 states it: template fields intersected
with the available fields, then the configured identifier force-included —
with no common-ID force-include step. -/
def resolveQueryFieldsClaim (template_fields available : List String)
    (record_id_field : Option String) : List String :=
  let query_fields := template_fields.filter (fun f => available.contains f)
  match record_id_field with
  | some r =>
    if r ≠ "" && !query_fields.contains r then query_fields ++ [r]
    else query_fields
  | none => query_fields

/-- The progress lookup as claim C9 states it: check the in-memory map
first, then fall back to the durable `execution_status` mirror by execution
id; the execution counts as found when either holds it. -/
def getBatchProgressClaim (mem : List (String × ExecEntry))
    (persisted : List StatusRow) (execution_id : String) : Bool :=
  (List.find? (fun p => p.1 = execution_id) mem).isSome ||
  (List.find? (fun r => r.execution_id = execution_id) persisted).isSome

/-- The identifier resolution as claim C8 states it: one fallback chain
through the configured field, `Id`, `id`, `Name`, `name`, then
`Record_<idx>`. -/
def resolveRecordIdClaim (record_id_field : Option String) (record : Record)
    (idx : Nat) : String :=
  pyOrS (record_id_field.bind (fun r => recordGet record r))
    (fallbackId record idx)

/-- `rest` does not begin with a numeric-token character (so a numeric token
followed by `rest` is re-tokenized exactly). -/
def noNumHead : List Char → Bool
  | [] => true
  | c :: _ => !isNumChar c

/-- The sorted column set of `generate_structured_csv` for a result list
(used to state the CSV claims). -/
def csvFields (results : List CsvResult) : List String :=
  sortedFields (results.map (fun r => flattenResult r.response))

/-- A template assembled from placeholder/prose segments: each segment
contributes `\x7b\x7bname\x7d\x7d` followed by its prose piece.  Together
with a leading prose piece this describes every template that decomposes
into prose (free of `\x7b`) and well-formed placeholders; used to state
C10 over all such templates. -/
def renderSegs : List (List Char × List Char) → List Char
  | [] => []
  | (nm, pr) :: rest => '{' :: '{' :: (nm ++ '}' :: '}' :: (pr ++ renderSegs rest))

/-! ## Concrete fixtures used by witness theorems -/

/-- A loop configuration whose model call always raises. -/
def cfgExnW : RunCfg :=
  { record_id_field := none, batch_name := "B", template := "t",
    response_schema := none, generate := fun _ => GenResult.exn "boom" }

/-- A loop configuration whose model call always returns the JSON text
of the empty object. -/
def cfgOkW : RunCfg :=
  { record_id_field := none, batch_name := "B", template := "t",
    response_schema := none, generate := fun _ => GenResult.ok "\x7b\x7d" }

/-- The tracker state after the single row of the `cfgOkW` run. -/
def stateOkW : LoopAcc :=
  { results := [⟨"r1", "B", Json.obj []⟩],
    success_count := 1, error_count := 0, current := 1 }

/-- A concrete batches row (no dataset configuration reference). -/
def batchW : BatchRow :=
  { id := "b1", name := "B", dataset_id := "ds", dataset_name := "DS",
    dataset_config_id := none }

/-- A concrete prompts row. -/
def promptW : PromptCfg := { template := "t", response_schema := none }

/-- A concrete prior execution-history row. -/
def histW : HistoryRow :=
  { batch_name := "old", dataset_name := "old", total_records := 1,
    success_count := 1, error_count := 0, execution_time := 5, csv_rows := [] }

/-- Environment: the batch row is missing. -/
def envNoBatchW : Env :=
  { batch := none, config_row := none, prompt := some promptW,
    available_fields := [], records := [], generate := fun _ => GenResult.exn "x",
    prior_history := some histW, elapsed := 0 }

/-- Environment: batch present, prompts row missing, prior history present. -/
def envNoPromptW : Env :=
  { batch := some batchW, config_row := none, prompt := none,
    available_fields := [], records := [], generate := fun _ => GenResult.exn "x",
    prior_history := some histW, elapsed := 0 }

/-- Environment: batch and prompt present, no dataset configuration. -/
def envOkW : Env :=
  { batch := some batchW, config_row := none, prompt := some promptW,
    available_fields := [], records := [], generate := fun _ => GenResult.exn "x",
    prior_history := some histW, elapsed := 7 }

/-! # Theorems -/

/-! ## Parser / serializer round trip -/

theorem string_eta (s : String) : String.mk s.data = s := rfl

theorem skipWs_cons_of_not_ws {c : Char} (h : isWsChar c = false) (l : List Char) :
    skipWs (c :: l) = c :: l := by
  simp [skipWs, List.dropWhile_cons, h]

theorem skipWs_cons_of_ws {c : Char} (h : isWsChar c = true) (l : List Char) :
    skipWs (c :: l) = skipWs l := by
  simp [skipWs, List.dropWhile_cons, h]

theorem takeWhile_append_all {p : Char → Bool} {a : List Char}
    (h : ∀ c ∈ a, p c = true) (b : List Char) :
    (a ++ b).takeWhile p = a ++ b.takeWhile p := by
  induction a with
  | nil => simp
  | cons c cs ih =>
    have hc : p c = true := h c (by simp)
    simp [List.takeWhile_cons, hc]
    exact ih (fun x hx => h x (by simp [hx]))

theorem takeWhile_nil_of_head {p : Char → Bool} {b : List Char}
    (h : match b with | [] => True | c :: _ => p c = false) :
    b.takeWhile p = [] := by
  cases b with
  | nil => rfl
  | cons c l => simp at h; simp [List.takeWhile_cons, h]

theorem parseStrBody_escape (s : List Char) (r : List Char) :
    parseStrBody (escapeData s ++ '"' :: r) = some (s, r) := by
  induction s with
  | nil => simp [escapeData, parseStrBody]
  | cons c cs ih =>
    by_cases hq : c = '"'
    · subst hq
      simp [escapeData, escapeChar, parseStrBody, unescapeChar, ih]
    · by_cases hb : c = '\\'
      · subst hb
        simp [escapeData, escapeChar, parseStrBody, unescapeChar, ih]
      · simp [escapeData, escapeChar, hq, hb, parseStrBody, ih]

theorem isDigit_not_ws {c : Char} (h : c.isDigit = true) : isWsChar c = false := by
  cases hc : isWsChar c
  · rfl
  · exfalso
    simp [isWsChar] at hc
    rcases hc with ((rfl | rfl) | rfl) | rfl <;> exact absurd h (by decide)

theorem isDigit_ne {c : Char} (h : c.isDigit = true) :
    c ≠ '"' ∧ c ≠ 'n' ∧ c ≠ 't' ∧ c ≠ 'f' ∧ c ≠ ']' ∧ c ≠ '}' ∧ c ≠ ',' := by
  refine ⟨?_, ?_, ?_, ?_, ?_, ?_, ?_⟩ <;> rintro rfl <;> exact absurd h (by decide)

theorem parseVal_unfold (f : Nat) (cs : List Char) :
    parseVal (f + 1) cs =
      (match skipWs cs with
       | [] => none
       | c :: rest =>
         if c = '"' then
           match parseStrBody rest with
           | none => none
           | some (s, r) => some (Json.str ⟨s⟩, r)
         else if c = 'n' then
           match rest with
           | 'u' :: 'l' :: 'l' :: r => some (Json.null, r)
           | _ => none
         else if c = 't' then
           match rest with
           | 'r' :: 'u' :: 'e' :: r => some (Json.bool true, r)
           | _ => none
         else if c = 'f' then
           match rest with
           | 'a' :: 'l' :: 's' :: 'e' :: r => some (Json.bool false, r)
           | _ => none
         else if c.isDigit || c = '-' then
           let tok := (c :: rest).takeWhile isNumChar
           some (Json.num ⟨tok⟩, (c :: rest).drop tok.length)
         else if c = '[' then
           match skipWs rest with
           | ']' :: r => some (Json.arr [], r)
           | cs2 =>
             match parseItemsLoop f cs2 with
             | none => none
             | some (vs, r) => some (Json.arr vs, r)
         else if c = '{' then
           match skipWs rest with
           | '}' :: r => some (Json.obj [], r)
           | cs2 =>
             match parseMembersLoop f cs2 with
             | none => none
             | some (m, r) => some (Json.obj (pyDict m), r)
         else none) := rfl

theorem parseItemsLoop_unfold (f : Nat) (cs : List Char) :
    parseItemsLoop (f + 1) cs =
      (match parseVal f cs with
       | none => none
       | some (v, r) =>
         match skipWs r with
         | ']' :: r2 => some ([v], r2)
         | ',' :: r2 =>
           (match parseItemsLoop f r2 with
            | none => none
            | some (vs, rr) => some (v :: vs, rr))
         | _ => none) := rfl

theorem parseMembersLoop_unfold (f : Nat) (cs : List Char) :
    parseMembersLoop (f + 1) cs =
      (match skipWs cs with
       | '"' :: rest =>
         (match parseStrBody rest with
          | none => none
          | some (k, r) =>
            match skipWs r with
            | ':' :: r2 =>
              (match parseVal f r2 with
               | none => none
               | some (v, r3) =>
                 match skipWs r3 with
                 | '}' :: r4 => some ([(⟨k⟩, v)], r4)
                 | ',' :: r4 =>
                   (match parseMembersLoop f r4 with
                    | none => none
                    | some (m, rr) => some ((⟨k⟩, v) :: m, rr))
                 | _ => none)
            | _ => none)
       | _ => none) := rfl

theorem parseVal_cons_ws {c : Char} (h : isWsChar c = true) (f : Nat)
    (X : List Char) : parseVal f (c :: X) = parseVal f X := by
  cases f with
  | zero => rfl
  | succ f => rw [parseVal_unfold, parseVal_unfold, skipWs_cons_of_ws h]

theorem parseItemsLoop_cons_ws {c : Char} (h : isWsChar c = true) (f : Nat)
    (X : List Char) : parseItemsLoop f (c :: X) = parseItemsLoop f X := by
  cases f with
  | zero => rfl
  | succ f =>
    rw [parseItemsLoop_unfold, parseItemsLoop_unfold, parseVal_cons_ws h]

theorem parseMembersLoop_cons_ws {c : Char} (h : isWsChar c = true) (f : Nat)
    (X : List Char) : parseMembersLoop f (c :: X) = parseMembersLoop f X := by
  cases f with
  | zero => rfl
  | succ f =>
    rw [parseMembersLoop_unfold, parseMembersLoop_unfold, skipWs_cons_of_ws h]

theorem one_le_jfuel (v : Json) : 1 ≤ jfuel v := by
  cases v <;> simp [jfuel]

theorem numTokenOK_shape {s : String} (h : numTokenOK s = true) :
    ∃ c cs, s.data = c :: cs ∧ (c.isDigit || c = '-') = true ∧
      (c :: cs).all isNumChar = true := by
  cases hd : s.data with
  | nil => rw [numTokenOK, hd] at h; simp at h
  | cons a l =>
    rw [numTokenOK, hd] at h
    simp only [Bool.and_eq_true] at h
    exact ⟨a, l, rfl, h.1, h.2⟩

theorem dumps_head (v : Json) (hwf : wfb v = true) :
    ∃ c l, dumpsData v = c :: l ∧ isWsChar c = false ∧ c ≠ ']' := by
  cases v with
  | null => exact ⟨'n', _, rfl, by decide, by decide⟩
  | bool b =>
    cases b
    · exact ⟨'f', _, rfl, by decide, by decide⟩
    · exact ⟨'t', _, rfl, by decide, by decide⟩
  | num s =>
    obtain ⟨c, cs, hd, hc, _⟩ := numTokenOK_shape (by simpa [wfb] using hwf)
    refine ⟨c, cs ++ [], by simp [dumpsData, hd], ?_, ?_⟩
    · rcases Bool.or_eq_true_iff.mp hc with h1 | h1
      · exact isDigit_not_ws h1
      · simp only [decide_eq_true_eq] at h1; subst h1; decide
    · rcases Bool.or_eq_true_iff.mp hc with h1 | h1
      · exact (isDigit_ne h1).2.2.2.2.1
      · simp only [decide_eq_true_eq] at h1; subst h1; decide
  | str s => exact ⟨'"', _, rfl, by decide, by decide⟩
  | arr xs => exact ⟨'[', _, rfl, by decide, by decide⟩
  | obj m => exact ⟨'{', _, rfl, by decide, by decide⟩

theorem jfuelL_cons (x : Json) (xs : List Json) :
    jfuelL (x :: xs) = jfuel x + 1 + jfuelL xs := rfl

theorem jfuelM_cons (k : String) (v : Json) (m : List (String × Json)) :
    jfuelM ((k, v) :: m) = jfuel v + 1 + jfuelM m := rfl

theorem pyDict_eq_self_aux (m acc : List (String × Json))
    (h : ((acc.map Prod.fst) ++ (m.map Prod.fst)).Nodup) :
    List.foldl (fun d kv => pyDictInsert d kv.1 kv.2) acc m = acc ++ m := by
  induction m generalizing acc with
  | nil => simp
  | cons kv rest ih =>
    obtain ⟨k, v⟩ := kv
    have hk : k ∉ acc.map Prod.fst := by
      intro hmem
      have := (List.nodup_append.mp h).2.2
      exact this hmem (by simp)
    have hnot : acc.any (fun p => p.1 = k) = false := by
      rw [List.any_eq_false]
      intro p hp
      simp only [decide_eq_true_eq]
      intro hpk
      exact hk (by simpa [hpk] using List.mem_map_of_mem Prod.fst hp)
    have hins : pyDictInsert acc k v = acc ++ [(k, v)] := by
      simp [pyDictInsert, hnot]
    have hnodup2 : (((acc ++ [(k, v)]).map Prod.fst) ++ (rest.map Prod.fst)).Nodup := by
      simpa [List.append_assoc] using h
    calc List.foldl (fun d kv => pyDictInsert d kv.1 kv.2) acc ((k, v) :: rest)
        = List.foldl (fun d kv => pyDictInsert d kv.1 kv.2) (acc ++ [(k, v)]) rest := by
          simp [List.foldl_cons, hins]
      _ = (acc ++ [(k, v)]) ++ rest := ih _ hnodup2
      _ = acc ++ (k, v) :: rest := by simp

theorem pyDict_eq_self {m : List (String × Json)}
    (h : (m.map Prod.fst).Nodup) : pyDict m = m := by
  have := pyDict_eq_self_aux m [] (by simpa using h)
  simpa [pyDict] using this

/-- The printer/parser round trip, by induction on the parser's fuel:
with enough fuel, parsing the serialization of a well-formed value (followed
by a non-numeric continuation) returns exactly that value. -/
theorem roundtrip_all : ∀ f : Nat,
    (∀ v rest, wfb v = true → jfuel v ≤ f → noNumHead rest = true →
       parseVal f (dumpsData v ++ rest) = some (v, rest)) ∧
    (∀ xs rest, wfbL xs = true → xs ≠ [] → jfuelL xs ≤ f →
       parseItemsLoop f (dumpsListData xs ++ ']' :: rest) = some (xs, rest)) ∧
    (∀ m rest, wfbM m = true → m ≠ [] → jfuelM m ≤ f →
       parseMembersLoop f (dumpsMembersData m ++ '}' :: rest) = some (m, rest)) := by
  intro f
  induction f with
  | zero =>
    refine ⟨?_, ?_, ?_⟩
    · intro v _ _ hfu _
      exact absurd hfu (by have := one_le_jfuel v; omega)
    · intro xs _ _ hne hfu
      cases xs with
      | nil => exact absurd rfl hne
      | cons x xs => rw [jfuelL_cons] at hfu; omega
    · intro m _ _ hne hfu
      cases m with
      | nil => exact absurd rfl hne
      | cons p ms => obtain ⟨k, v⟩ := p; rw [jfuelM_cons] at hfu; omega
  | succ f ih =>
    obtain ⟨ih1, ih2, ih3⟩ := ih
    refine ⟨?_, ?_, ?_⟩
    · intro v rest hwf hfu hnn
      cases v with
      | null => rfl
      | bool b => cases b <;> rfl
      | str s =>
        have hsh : dumpsData (Json.str s) ++ rest =
            '"' :: (escapeData s.data ++ '"' :: rest) := by
          simp [dumpsData]
        rw [hsh]
        have h2 : parseVal (f + 1) ('"' :: (escapeData s.data ++ '"' :: rest)) =
            (match parseStrBody (escapeData s.data ++ '"' :: rest) with
             | none => none
             | some (s, r) => some (Json.str ⟨s⟩, r)) := rfl
        rw [h2, parseStrBody_escape]
      | num s =>
        obtain ⟨c, cs, hdata, hck1, hck2⟩ := numTokenOK_shape (by simpa [wfb] using hwf)
        have hnws : isWsChar c = false := by
          rcases Bool.or_eq_true_iff.mp hck1 with h1 | h1
          · exact isDigit_not_ws h1
          · simp only [decide_eq_true_eq] at h1; subst h1; decide
        have hne : c ≠ '"' ∧ c ≠ 'n' ∧ c ≠ 't' ∧ c ≠ 'f' := by
          rcases Bool.or_eq_true_iff.mp hck1 with h1 | h1
          · exact ⟨(isDigit_ne h1).1, (isDigit_ne h1).2.1,
              (isDigit_ne h1).2.2.1, (isDigit_ne h1).2.2.2.1⟩
          · simp only [decide_eq_true_eq] at h1; subst h1
            exact ⟨by decide, by decide, by decide, by decide⟩
        have hin : dumpsData (Json.num s) ++ rest = c :: (cs ++ rest) := by
          simp [dumpsData, hdata]
        rw [hin, parseVal_unfold, skipWs_cons_of_not_ws hnws]
        simp only [if_neg hne.1, if_neg hne.2.1, if_neg hne.2.2.1,
          if_neg hne.2.2.2, if_pos hck1]
        have htok : (c :: (cs ++ rest)).takeWhile isNumChar = c :: cs := by
          have happ : (c :: cs) ++ rest = c :: (cs ++ rest) := by simp
          rw [← happ, takeWhile_append_all, takeWhile_nil_of_head]
          · simp
          · cases rest with
            | nil => trivial
            | cons b bs => simpa [noNumHead] using hnn
          · intro x hx
            exact List.all_eq_true.mp hck2 x hx
        simp only [htok]
        have hdrop : (c :: (cs ++ rest)).drop (c :: cs).length = rest := by
          have happ : (c :: cs) ++ rest = c :: (cs ++ rest) := by simp
          rw [← happ, List.drop_left]
        rw [hdrop, ← hdata, string_eta]
      | arr xs =>
        cases xs with
        | nil => rfl
        | cons x xs =>
          have hwf2 : wfb x = true ∧ wfbL xs = true := by
            simpa [wfb, wfbL, Bool.and_eq_true] using hwf
          have hfu2 : jfuelL (x :: xs) ≤ f := by
            simp only [jfuel] at hfu; omega
          have hsh : dumpsData (Json.arr (x :: xs)) ++ rest =
              '[' :: (dumpsListData (x :: xs) ++ ']' :: rest) := by
            simp [dumpsData]
          rw [hsh, parseVal_unfold, skipWs_cons_of_not_ws (by decide)]
          show (match skipWs (dumpsListData (x :: xs) ++ ']' :: rest) with
                | ']' :: r => some (Json.arr [], r)
                | cs2 =>
                  match parseItemsLoop f cs2 with
                  | none => none
                  | some (vs, r) => some (Json.arr vs, r)) =
              some (Json.arr (x :: xs), rest)
          obtain ⟨c, l, hc, hnws, hneb⟩ := dumps_head x hwf2.1
          obtain ⟨t, ht⟩ : ∃ t, dumpsListData (x :: xs) = dumpsData x ++ t := by
            cases xs
            · exact ⟨[], by simp [dumpsListData]⟩
            · exact ⟨_, rfl⟩
          have hscr : dumpsListData (x :: xs) ++ ']' :: rest =
              c :: (l ++ (t ++ ']' :: rest)) := by
            rw [ht, hc]; simp
          rw [hscr, skipWs_cons_of_not_ws hnws]
          split
          · rename_i heq
            exact absurd (List.head_eq_of_cons_eq heq) hneb
          · rw [← hscr,
              ih2 (x :: xs) rest (by simp [wfbL, hwf2.1, hwf2.2]) (by simp) hfu2]
      | obj m =>
        cases m with
        | nil => rfl
        | cons p ms =>
          obtain ⟨k, v⟩ := p
          have hwfm : wfbM ((k, v) :: ms) = true ∧
              (((k, v) :: ms).map Prod.fst).Nodup := by
            have h := hwf
            simp only [wfb, Bool.and_eq_true, decide_eq_true_eq] at h
            exact h
          have hfu2 : jfuelM ((k, v) :: ms) ≤ f := by
            simp only [jfuel] at hfu; omega
          have hsh : dumpsData (Json.obj ((k, v) :: ms)) ++ rest =
              '{' :: (dumpsMembersData ((k, v) :: ms) ++ '}' :: rest) := by
            simp [dumpsData]
          rw [hsh, parseVal_unfold, skipWs_cons_of_not_ws (by decide)]
          show (match skipWs (dumpsMembersData ((k, v) :: ms) ++ '}' :: rest) with
                | '}' :: r => some (Json.obj [], r)
                | cs2 =>
                  match parseMembersLoop f cs2 with
                  | none => none
                  | some (mm, r) => some (Json.obj (pyDict mm), r)) =
              some (Json.obj ((k, v) :: ms), rest)
          obtain ⟨Y, hY⟩ : ∃ Y, dumpsMembersData ((k, v) :: ms) = '"' :: Y := by
            cases ms
            · exact ⟨_, rfl⟩
            · exact ⟨_, rfl⟩
          have hscr : dumpsMembersData ((k, v) :: ms) ++ '}' :: rest =
              '"' :: (Y ++ '}' :: rest) := by
            rw [hY]; simp
          rw [hscr, skipWs_cons_of_not_ws (by decide)]
          split
          · rename_i heq
            exact absurd (List.head_eq_of_cons_eq heq) (by decide)
          · rw [← hscr, ih3 ((k, v) :: ms) rest hwfm.1 (by simp) hfu2]
            show some (Json.obj (pyDict ((k, v) :: ms)), rest) =
              some (Json.obj ((k, v) :: ms), rest)
            rw [pyDict_eq_self hwfm.2]
    · intro xs rest hwf hne hfu
      cases xs with
      | nil => exact absurd rfl hne
      | cons x xs =>
        have hwf2 : wfb x = true ∧ wfbL xs = true := by
          simpa [wfbL, Bool.and_eq_true] using hwf
        have hfux : jfuel x ≤ f := by rw [jfuelL_cons] at hfu; omega
        rw [parseItemsLoop_unfold]
        cases xs with
        | nil =>
          have hsh : dumpsListData [x] ++ ']' :: rest =
              dumpsData x ++ ']' :: rest := by
            simp [dumpsListData]
          rw [hsh, ih1 x (']' :: rest) hwf2.1 hfux rfl]
          rfl
        | cons y ys =>
          have hfuy : jfuelL (y :: ys) ≤ f := by
            rw [jfuelL_cons] at hfu; omega
          have hsh : dumpsListData (x :: y :: ys) ++ ']' :: rest =
              dumpsData x ++ (',' :: ' ' :: (dumpsListData (y :: ys) ++ ']' :: rest)) := by
            simp [dumpsListData]
          rw [hsh, ih1 x (',' :: ' ' :: (dumpsListData (y :: ys) ++ ']' :: rest))
            hwf2.1 hfux rfl]
          show (match parseItemsLoop f
                  (' ' :: (dumpsListData (y :: ys) ++ ']' :: rest)) with
                | none => none
                | some (vs, rr) => some (x :: vs, rr)) =
              some (x :: y :: ys, rest)
          rw [parseItemsLoop_cons_ws (by decide),
            ih2 (y :: ys) rest hwf2.2 (by simp) hfuy]
    · intro m rest hwf hne hfu
      cases m with
      | nil => exact absurd rfl hne
      | cons p ms =>
        obtain ⟨k, v⟩ := p
        have hwf2 : wfb v = true ∧ wfbM ms = true := by
          simpa [wfbM, Bool.and_eq_true] using hwf
        have hfuv : jfuel v ≤ f := by rw [jfuelM_cons] at hfu; omega
        rw [parseMembersLoop_unfold]
        cases ms with
        | nil =>
          have hsh : dumpsMembersData [(k, v)] ++ '}' :: rest =
              '"' :: (escapeData k.data ++ '"' ::
                (':' :: ' ' :: (dumpsData v ++ '}' :: rest))) := by
            simp [dumpsMembersData]
          rw [hsh, skipWs_cons_of_not_ws (by decide)]
          show (match parseStrBody (escapeData k.data ++ '"' ::
                  (':' :: ' ' :: (dumpsData v ++ '}' :: rest))) with
                | none => none
                | some (kk, r) =>
                  match skipWs r with
                  | ':' :: r2 =>
                    (match parseVal f r2 with
                     | none => none
                     | some (vv, r3) =>
                       match skipWs r3 with
                       | '}' :: r4 => some ([(⟨kk⟩, vv)], r4)
                       | ',' :: r4 =>
                         (match parseMembersLoop f r4 with
                          | none => none
                          | some (mm, rr) => some ((⟨kk⟩, vv) :: mm, rr))
                       | _ => none)
                  | _ => none) = some ([(k, v)], rest)
          rw [parseStrBody_escape]
          show (match parseVal f (' ' :: (dumpsData v ++ '}' :: rest)) with
                | none => none
                | some (vv, r3) =>
                  match skipWs r3 with
                  | '}' :: r4 => some ([(⟨k.data⟩, vv)], r4)
                  | ',' :: r4 =>
                    (match parseMembersLoop f r4 with
                     | none => none
                     | some (mm, rr) => some ((⟨k.data⟩, vv) :: mm, rr))
                  | _ => none) = some ([(k, v)], rest)
          rw [parseVal_cons_ws (by decide), ih1 v ('}' :: rest) hwf2.1 hfuv rfl]
          rfl
        | cons q qs =>
          have hfuq : jfuelM (q :: qs) ≤ f := by
            rw [jfuelM_cons] at hfu; omega
          have hsh : dumpsMembersData ((k, v) :: q :: qs) ++ '}' :: rest =
              '"' :: (escapeData k.data ++ '"' ::
                (':' :: ' ' :: (dumpsData v ++
                  (',' :: ' ' :: (dumpsMembersData (q :: qs) ++ '}' :: rest))))) := by
            simp [dumpsMembersData]
          rw [hsh, skipWs_cons_of_not_ws (by decide)]
          show (match parseStrBody (escapeData k.data ++ '"' ::
                  (':' :: ' ' :: (dumpsData v ++
                    (',' :: ' ' :: (dumpsMembersData (q :: qs) ++ '}' :: rest))))) with
                | none => none
                | some (kk, r) =>
                  match skipWs r with
                  | ':' :: r2 =>
                    (match parseVal f r2 with
                     | none => none
                     | some (vv, r3) =>
                       match skipWs r3 with
                       | '}' :: r4 => some ([(⟨kk⟩, vv)], r4)
                       | ',' :: r4 =>
                         (match parseMembersLoop f r4 with
                          | none => none
                          | some (mm, rr) => some ((⟨kk⟩, vv) :: mm, rr))
                       | _ => none)
                  | _ => none) = some ((k, v) :: q :: qs, rest)
          rw [parseStrBody_escape]
          show (match parseVal f (' ' :: (dumpsData v ++
                  (',' :: ' ' :: (dumpsMembersData (q :: qs) ++ '}' :: rest)))) with
                | none => none
                | some (vv, r3) =>
                  match skipWs r3 with
                  | '}' :: r4 => some ([(⟨k.data⟩, vv)], r4)
                  | ',' :: r4 =>
                    (match parseMembersLoop f r4 with
                     | none => none
                     | some (mm, rr) => some ((⟨k.data⟩, vv) :: mm, rr))
                  | _ => none) = some ((k, v) :: q :: qs, rest)
          rw [parseVal_cons_ws (by decide),
            ih1 v (',' :: ' ' :: (dumpsMembersData (q :: qs) ++ '}' :: rest))
              hwf2.1 hfuv rfl]
          show (match parseMembersLoop f
                  (' ' :: (dumpsMembersData (q :: qs) ++ '}' :: rest)) with
                | none => none
                | some (mm, rr) => some ((⟨k.data⟩, v) :: mm, rr)) =
              some ((k, v) :: q :: qs, rest)
          rw [parseMembersLoop_cons_ws (by decide),
            ih3 (q :: qs) rest hwf2.2 (by simp) hfuq]


/-- The parser fuel needed for a well-formed value is at most the length of
its serialization (plus one, for the list/member components). -/
theorem jfuel_le_dumps_all : ∀ n : Nat,
    (∀ v : Json, sizeOf v ≤ n → wfb v = true →
       jfuel v ≤ (dumpsData v).length) ∧
    (∀ xs : List Json, sizeOf xs ≤ n → wfbL xs = true →
       jfuelL xs ≤ (dumpsListData xs).length + 1) ∧
    (∀ m : List (String × Json), sizeOf m ≤ n → wfbM m = true →
       jfuelM m ≤ (dumpsMembersData m).length + 1) := by
  intro n
  induction n using Nat.strong_induction_on with
  | _ n ih =>
    refine ⟨?_, ?_, ?_⟩
    · intro v hsz hwf
      cases v with
      | null => simp [jfuel, dumpsData]
      | bool b => cases b <;> simp [jfuel, dumpsData]
      | num s =>
        obtain ⟨c, cs, hdata, -, -⟩ := numTokenOK_shape (by simpa [wfb] using hwf)
        simp [jfuel, dumpsData, hdata]
      | str s => simp [jfuel, dumpsData]
      | arr xs =>
        have hszx : sizeOf xs < n := by
          cases n with
          | zero => exact absurd hsz (by simp)
          | succ n => simp at hsz; omega
        have hx := (ih _ hszx).2.1 xs (le_refl _) (by simpa [wfb] using hwf)
        simp only [jfuel, dumpsData, List.length_cons, List.length_append]
        simp at hx ⊢
        omega
      | obj m =>
        have hszm : sizeOf m < n := by
          cases n with
          | zero => exact absurd hsz (by simp)
          | succ n => simp at hsz; omega
        have hwfm : wfbM m = true := by
          simp only [wfb, Bool.and_eq_true] at hwf
          exact hwf.1
        have hx := (ih _ hszm).2.2 m (le_refl _) hwfm
        simp only [jfuel, dumpsData, List.length_cons, List.length_append]
        simp at hx ⊢
        omega
    · intro xs hsz hwf
      cases xs with
      | nil => simp [jfuelL, dumpsListData]
      | cons x ys =>
        have hwf2 : wfb x = true ∧ wfbL ys = true := by
          simpa [wfbL, Bool.and_eq_true] using hwf
        have hszx : sizeOf x < n := by
          cases n with
          | zero => exact absurd hsz (by simp)
          | succ n => simp at hsz; omega
        have hx := (ih _ hszx).1 x (le_refl _) hwf2.1
        cases ys with
        | nil =>
          rw [jfuelL_cons]
          simp only [jfuelL, dumpsListData]
          omega
        | cons y zs =>
          have hszy : sizeOf (y :: zs) < n := by
            cases n with
            | zero => exact absurd hsz (by simp)
            | succ n => simp at hsz ⊢; omega
          have hy := (ih _ hszy).2.1 (y :: zs) (le_refl _) hwf2.2
          rw [jfuelL_cons]
          have hfold : dumpsListData (x :: y :: zs) =
              dumpsData x ++ ',' :: ' ' :: dumpsListData (y :: zs) := rfl
          rw [hfold]
          simp only [List.length_append, List.length_cons]
          omega
    · intro m hsz hwf
      cases m with
      | nil => simp [jfuelM, dumpsMembersData]
      | cons p ms =>
        obtain ⟨k, v⟩ := p
        have hwf2 : wfb v = true ∧ wfbM ms = true := by
          simpa [wfbM, Bool.and_eq_true] using hwf
        have hszv : sizeOf v < n := by
          cases n with
          | zero => exact absurd hsz (by simp)
          | succ n => simp at hsz; omega
        have hv := (ih _ hszv).1 v (le_refl _) hwf2.1
        cases ms with
        | nil =>
          rw [jfuelM_cons]
          simp only [jfuelM, dumpsMembersData, List.length_cons, List.length_append]
          omega
        | cons q qs =>
          have hszq : sizeOf (q :: qs) < n := by
            cases n with
            | zero => exact absurd hsz (by simp)
            | succ n => simp at hsz ⊢; omega
          have hq := (ih _ hszq).2.2 (q :: qs) (le_refl _) hwf2.2
          rw [jfuelM_cons]
          have hfold : dumpsMembersData ((k, v) :: q :: qs) =
              '"' :: escapeData k.data ++ '"' :: ':' :: ' ' :: dumpsData v ++
                ',' :: ' ' :: dumpsMembersData (q :: qs) := rfl
          rw [hfold]
          simp only [List.length_append, List.length_cons]
          omega

theorem jfuel_le_dumps {v : Json} (hwf : wfb v = true) :
    jfuel v ≤ (dumpsData v).length :=
  (jfuel_le_dumps_all (sizeOf v)).1 v (le_refl _) hwf

/-- The round trip at `String` level: `loads` inverts `dumps` on well-formed
values. -/
theorem loads_dumps (v : Json) (hwf : wfb v = true) :
    loads (dumps v) = some v := by
  have hlen : (dumps v).length = (dumpsData v).length := rfl
  have h := (roundtrip_all ((dumps v).length + 1)).1 v [] hwf
    (by rw [hlen]; have := jfuel_le_dumps hwf; omega) rfl
  rw [List.append_nil] at h
  have hdm : (dumps v).data = dumpsData v := rfl
  rw [loads, hdm, h]
  rfl

theorem wfbM_filter (m : List (String × Json)) (p : String × Json → Bool)
    (h : wfbM m = true) : wfbM (m.filter p) = true := by
  induction m with
  | nil => rfl
  | cons kv rest ih =>
    obtain ⟨k, v⟩ := kv
    have h2 : wfb v = true ∧ wfbM rest = true := by
      simpa [wfbM, Bool.and_eq_true] using h
    by_cases hp : p (k, v) = true
    · simp [List.filter_cons, hp, wfbM, h2.1, ih h2.2]
    · simp only [Bool.not_eq_true] at hp
      simp [List.filter_cons, hp, ih h2.2]

theorem keys_nodup_filter (m : List (String × Json)) (p : String × Json → Bool)
    (h : (m.map Prod.fst).Nodup) : ((m.filter p).map Prod.fst).Nodup := by
  have hsub : (m.filter p).Sublist m := List.filter_sublist m
  exact h.sublist (hsub.map Prod.fst)

theorem wfb_removeSchemaFields {v : Json} (hwf : wfb v = true) :
    wfb (removeSchemaFields v) = true := by
  cases v with
  | obj m =>
    have h : wfbM m = true ∧ (m.map Prod.fst).Nodup := by
      simpa [wfb, Bool.and_eq_true] using hwf
    simp only [removeSchemaFields, wfb, Bool.and_eq_true, decide_eq_true_eq]
    exact ⟨wfbM_filter m _ h.1, keys_nodup_filter m _ h.2⟩
  | null => exact hwf
  | bool b => exact hwf
  | num s => exact hwf
  | str s => exact hwf
  | arr xs => exact hwf

/-! ## Lemmas about the backward brace scan of
`extract_json_from_llm_response` -/

theorem rfindIdx_append_last (l : List Char) (a : Char) :
    rfindIdx (l ++ [a]) a = some l.length := by
  induction l with
  | nil => simp [rfindIdx]
  | cons c cs ih => simp [rfindIdx, ih]

theorem rfindIdx_eq_none {cs : List Char} {c : Char} :
    rfindIdx cs c = none ↔ c ∉ cs := by
  induction cs with
  | nil => simp [rfindIdx]
  | cons a rest ih =>
    rw [rfindIdx]
    cases hr : rfindIdx rest c with
    | some i =>
      constructor
      · intro h; cases h
      · intro h
        have hm : c ∈ rest := by
          by_contra hmem
          rw [ih.mpr hmem] at hr
          cases hr
        exact absurd (List.mem_cons_of_mem a hm) h
    | none =>
      by_cases ha : a = c
      · subst ha
        simp
      · constructor
        · intro _
          simp only [List.mem_cons]
          rintro (rfl | hm)
          · exact ha rfl
          · exact (ih.mp hr) hm
        · intro _
          simp [ha]

theorem scanBack_append {a : List Char} {d : Int} {j : Nat}
    (h : scanBack a d = some j) (b : List Char) :
    scanBack (a ++ b) d = some (j + b.length) := by
  induction a generalizing d with
  | nil => simp [scanBack] at h
  | cons c cs ih =>
    rw [List.cons_append, scanBack]
    rw [scanBack] at h
    by_cases hc : c = '}'
    · rw [if_pos hc] at h ⊢
      exact ih h
    · rw [if_neg hc] at h ⊢
      by_cases ho : c = '{'
      · rw [if_pos ho] at h ⊢
        by_cases hd : d - 1 = 0
        · rw [if_pos hd] at h ⊢
          injection h with h2
          have hlen : (cs ++ b).length = j + b.length := by
            rw [List.length_append]
            omega
          rw [hlen]
        · rw [if_neg hd] at h ⊢
          exact ih h
      · rw [if_neg ho] at h ⊢
        exact ih h


/-! ## Behavior of `extract_json_from_llm_response` -/

theorem extract_no_brace {s : String} (h : '}' ∉ s.data) :
    extract_json_from_llm_response s = pyStrip s := by
  rw [extract_json_from_llm_response, rfindIdx_eq_none.mpr h]

theorem extract_at_brace {s : String} {lb : Nat}
    (h : rfindIdx s.data '}' = some lb) :
    extract_json_from_llm_response s = extractAtBrace s lb := by
  rw [extract_json_from_llm_response, h]

theorem extract_no_balance {s : String} {lb : Nat}
    (h : rfindIdx s.data '}' = some lb)
    (h2 : scanBack ((s.data.take (lb + 1)).reverse) 0 = none) :
    extract_json_from_llm_response s = pyStrip s := by
  rw [extract_at_brace h, extractAtBrace, h2]

theorem extract_balance {s : String} {lb i : Nat}
    (h : rfindIdx s.data '}' = some lb)
    (h2 : scanBack ((s.data.take (lb + 1)).reverse) 0 = some i) :
    extract_json_from_llm_response s =
      extractAfterScan (s.data.take (lb + 1)) i := by
  rw [extract_at_brace h, extractAtBrace, h2]

theorem extractAfterScan_parse_obj {pre : List Char} {i : Nat}
    {m : List (String × Json)} (h : loads ⟨pre.drop i⟩ = some (Json.obj m)) :
    extractAfterScan pre i =
      ⟨dumpsData (Json.obj (m.filter (fun kv => !schemaFields.contains kv.1)))⟩ := by
  rw [extractAfterScan, h]

theorem extractAfterScan_parse_fail {pre : List Char} {i : Nat}
    (h : loads ⟨pre.drop i⟩ = none) :
    extractAfterScan pre i = ⟨pre.drop i⟩ := by
  rw [extractAfterScan, h]

/-- The central extraction lemma for prose followed by a serialized object
whose backward scan balances at its own opening brace: the candidate is
exactly the object's text, and the output is the serialization of the object
with the metadata keys removed. -/
theorem extract_prose_obj (p : String) (m : List (String × Json))
    (hwf : wfb (Json.obj m) = true)
    (hscan : scanBack ((dumpsData (Json.obj m)).reverse) 0 = some 0) :
    extract_json_from_llm_response ⟨p.data ++ dumpsData (Json.obj m)⟩ =
      dumps (removeSchemaFields (Json.obj m)) := by
  have hd : (⟨p.data ++ dumpsData (Json.obj m)⟩ : String).data =
      p.data ++ dumpsData (Json.obj m) := rfl
  have hsplit : p.data ++ dumpsData (Json.obj m) =
      (p.data ++ '{' :: dumpsMembersData m) ++ ['}'] := by
    simp [dumpsData]
  have e1 : rfindIdx (p.data ++ dumpsData (Json.obj m)) '}' =
      some (p.data ++ '{' :: dumpsMembersData m).length := by
    rw [hsplit, rfindIdx_append_last]
  have hlb : (p.data ++ '{' :: dumpsMembersData m).length + 1 =
      (p.data ++ dumpsData (Json.obj m)).length := by
    rw [hsplit]
    simp
    omega
  have e2 : (p.data ++ dumpsData (Json.obj m)).take
      ((p.data ++ '{' :: dumpsMembersData m).length + 1) =
      p.data ++ dumpsData (Json.obj m) := by
    rw [hlb, List.take_length]
  have e3 : scanBack ((p.data ++ dumpsData (Json.obj m)).reverse) 0 =
      some p.data.length := by
    rw [List.reverse_append]
    have := scanBack_append hscan p.data.reverse
    simpa using this
  have e4 : (p.data ++ dumpsData (Json.obj m)).drop p.data.length =
      dumpsData (Json.obj m) := List.drop_left p.data (dumpsData (Json.obj m))
  have e5 : loads ⟨dumpsData (Json.obj m)⟩ = some (Json.obj m) :=
    loads_dumps (Json.obj m) hwf
  rw [extract_balance (by rw [hd]; exact e1) (by rw [hd, e2]; exact e3)]
  rw [hd, e2]
  rw [extractAfterScan_parse_obj (by rw [e4]; exact e5)]
  rfl


/-! ## Claim C3 -/

/-- C3 (amended): the JSON extractor behaves per its contract: (0) there are
eleven metadata keys; (1) input with no `}` is returned trimmed; (2) with a
last `}` but no depth-balancing `{`, the trimmed input is returned; (3) with
a balancing `{`, the candidate substring is parsed — on success the metadata
keys are removed from the object and it is re-serialized, on failure the raw
candidate is returned; (4) for input consisting of arbitrary prose followed
by the serialization of a well-formed JSON object *whose backward brace scan
balances exactly at its own opening brace* (in particular, whose string
literals contribute no unbalanced braces), the result re-parses to that
object minus the metadata keys. -/
theorem C3_json_extractor_contract :
    schemaFields.length = 11 ∧
    (∀ s : String, '}' ∉ s.data → extract_json_from_llm_response s = pyStrip s) ∧
    (∀ (s : String) (lb : Nat), rfindIdx s.data '}' = some lb →
       scanBack ((s.data.take (lb + 1)).reverse) 0 = none →
       extract_json_from_llm_response s = pyStrip s) ∧
    (∀ (s : String) (lb i : Nat), rfindIdx s.data '}' = some lb →
       scanBack ((s.data.take (lb + 1)).reverse) 0 = some i →
       (∀ m, loads ⟨(s.data.take (lb + 1)).drop i⟩ = some (Json.obj m) →
          extract_json_from_llm_response s =
            ⟨dumpsData (Json.obj
              (m.filter (fun kv => !schemaFields.contains kv.1)))⟩) ∧
       (loads ⟨(s.data.take (lb + 1)).drop i⟩ = none →
          extract_json_from_llm_response s = ⟨(s.data.take (lb + 1)).drop i⟩)) ∧
    (∀ (p : String) (m : List (String × Json)), wfb (Json.obj m) = true →
       scanBack ((dumpsData (Json.obj m)).reverse) 0 = some 0 →
       loads (extract_json_from_llm_response
           ⟨p.data ++ dumpsData (Json.obj m)⟩) =
         some (removeSchemaFields (Json.obj m))) := by
  refine ⟨rfl, ?_, ?_, ?_, ?_⟩
  · intro s h
    exact extract_no_brace h
  · intro s lb h h2
    exact extract_no_balance h h2
  · intro s lb i h h2
    constructor
    · intro m hm
      rw [extract_balance h h2, extractAfterScan_parse_obj hm]
    · intro hm
      rw [extract_balance h h2, extractAfterScan_parse_fail hm]
  · intro p m hwf hscan
    rw [extract_prose_obj p m hwf hscan]
    exact loads_dumps _ (wfb_removeSchemaFields hwf)

/-- C3 counterexample to the claim as stated: the input consisting of the
prose `x` followed by the well-formed trailing JSON object `{"a": "}"}`
(whose value contains a `}` inside a string literal).  The extractor returns
the whole input unchanged, which does not re-parse at all — so the result
does not re-parse to the object minus the metadata keys. -/
theorem C3_counterexample :
    ("x\x7b\"a\": \"\x7d\"\x7d" : String) =
      ⟨("x" : String).data ++ dumpsData (Json.obj [("a", Json.str "\x7d")])⟩ ∧
    wfb (Json.obj [("a", Json.str "\x7d")]) = true ∧
    loads (dumps (Json.obj [("a", Json.str "\x7d")])) =
      some (Json.obj [("a", Json.str "\x7d")]) ∧
    extract_json_from_llm_response "x\x7b\"a\": \"\x7d\"\x7d" =
      "x\x7b\"a\": \"\x7d\"\x7d" ∧
    loads (extract_json_from_llm_response "x\x7b\"a\": \"\x7d\"\x7d") = none := by
  exact ⟨rfl, rfl, rfl, rfl, rfl⟩

/-- C3 witness: the no-brace branch on a concrete string, and the
prose-plus-object property on `noise {"a": 1, "type": "object"}`, whose
result re-parses to `{"a": 1}` (the metadata key `type` removed). -/
theorem C3_witness :
    (('}' ∉ ("no json here" : String).data) ∧
      extract_json_from_llm_response "no json here" = "no json here") ∧
    wfb (Json.obj [("a", Json.num "1"), ("type", Json.str "object")]) = true ∧
    loads (extract_json_from_llm_response
        ⟨("noise " : String).data ++
          dumpsData (Json.obj [("a", Json.num "1"), ("type", Json.str "object")])⟩) =
      some (removeSchemaFields
        (Json.obj [("a", Json.num "1"), ("type", Json.str "object")])) := by
  refine ⟨⟨?_, ?_⟩, ?_, ?_⟩
  · decide
  · exact C3_json_extractor_contract.2.1 "no json here" (by decide)
  · rfl
  · exact C3_json_extractor_contract.2.2.2.2 "noise "
      [("a", Json.num "1"), ("type", Json.str "object")] rfl rfl


/-! ## The code-point order on strings -/

theorem char_toNat_inj {a b : Char} (h : a.toNat = b.toNat) : a = b :=
  Char.ext (UInt32.toNat.inj h)

theorem charListLe_refl : ∀ a : List Char, charListLe a a = true
  | [] => rfl
  | a :: as => by simp [charListLe, charListLe_refl as]

theorem charListLe_total : ∀ a b : List Char,
    charListLe a b = true ∨ charListLe b a = true
  | [], _ => Or.inl rfl
  | _ :: _, [] => Or.inr rfl
  | a :: as, b :: bs => by
    by_cases hab : a = b
    · subst hab
      simp only [charListLe, if_pos rfl]
      exact charListLe_total as bs
    · simp only [charListLe, if_neg hab, if_neg (Ne.symm hab)]
      have hne : a.toNat ≠ b.toNat := fun h => hab (char_toNat_inj h)
      rcases Nat.lt_or_ge a.toNat b.toNat with h | h
      · left; simpa using h
      · right; simp; omega

theorem charListLe_trans : ∀ a b c : List Char, charListLe a b = true →
    charListLe b c = true → charListLe a c = true
  | [], _, _, _, _ => rfl
  | a :: as, [], _, h1, _ => by simp [charListLe] at h1
  | a :: as, b :: bs, [], _, h2 => by simp [charListLe] at h2
  | a :: as, b :: bs, c :: cs, h1, h2 => by
    by_cases hab : a = b
    · subst hab
      by_cases hbc : a = c
      · subst hbc
        simp only [charListLe, if_pos rfl] at h1 h2 ⊢
        exact charListLe_trans as bs cs h1 h2
      · rw [charListLe, if_neg hbc] at h2
        rw [charListLe, if_neg hbc]
        exact h2
    · by_cases hbc : b = c
      · subst hbc
        rw [charListLe, if_neg hab] at h1
        rw [charListLe, if_neg hab]
        exact h1
      · have hlt1 : a.toNat < b.toNat := by
          rw [charListLe, if_neg hab] at h1
          simpa using h1
        have hlt2 : b.toNat < c.toNat := by
          rw [charListLe, if_neg hbc] at h2
          simpa using h2
        have hac : ¬ a = c := by
          intro h
          subst h
          omega
        rw [charListLe, if_neg hac]
        simp
        omega

theorem charListLe_antisymm : ∀ a b : List Char, charListLe a b = true →
    charListLe b a = true → a = b
  | [], [], _, _ => rfl
  | [], _ :: _, _, h2 => by simp [charListLe] at h2
  | _ :: _, [], h1, _ => by simp [charListLe] at h1
  | a :: as, b :: bs, h1, h2 => by
    by_cases hab : a = b
    · subst hab
      simp only [charListLe, if_pos rfl] at h1 h2
      rw [charListLe_antisymm as bs h1 h2]
    · have hlt1 : a.toNat < b.toNat := by
        rw [charListLe, if_neg hab] at h1
        simpa using h1
      have hlt2 : b.toNat < a.toNat := by
        rw [charListLe, if_neg (Ne.symm hab)] at h2
        simpa using h2
      omega

instance : IsTotal String (fun a b => strLe a b = true) :=
  ⟨fun a b => charListLe_total a.data b.data⟩

instance : IsTrans String (fun a b => strLe a b = true) :=
  ⟨fun a b c h1 h2 => charListLe_trans a.data b.data c.data h1 h2⟩

instance : IsAntisymm String (fun a b => strLe a b = true) :=
  ⟨fun a b h1 h2 => by
    have h := charListLe_antisymm a.data b.data h1 h2
    cases a
    cases b
    exact congrArg String.mk h⟩


/-! ## CSV field collection -/

theorem contains_iff_mem {l : List String} {a : String} :
    l.contains a = true ↔ a ∈ l := List.elem_iff

theorem innerFold_mem (fr : List (String × Json)) :
    ∀ (acc : List String) (f : String),
    (f ∈ fr.foldl (fun acc2 kv =>
        if schemaFields.contains kv.1 || acc2.contains kv.1 then acc2
        else acc2 ++ [kv.1]) acc ↔
      f ∈ acc ∨ (¬ f ∈ schemaFields ∧ ∃ kv ∈ fr, kv.1 = f)) := by
  induction fr with
  | nil => simp
  | cons kv rest ih =>
    intro acc f
    rw [List.foldl_cons]
    by_cases hc : (schemaFields.contains kv.1 || acc.contains kv.1) = true
    · rw [if_pos hc]
      rw [ih acc f]
      simp only [Bool.or_eq_true, contains_iff_mem] at hc
      constructor
      · rintro (hf | hf)
        · exact Or.inl hf
        · exact Or.inr ⟨hf.1, by
            obtain ⟨g, hg, hgf⟩ := hf.2
            exact ⟨g, List.mem_cons_of_mem kv hg, hgf⟩⟩
      · rintro (hf | ⟨hns, g, hg, hgf⟩)
        · exact Or.inl hf
        · rcases List.mem_cons.mp hg with rfl | hg2
          · rcases hc with hs | ha
            · exact absurd (hgf ▸ hs) hns
            · exact Or.inl (hgf ▸ ha)
          · exact Or.inr ⟨hns, g, hg2, hgf⟩
    · rw [if_neg hc]
      rw [ih (acc ++ [kv.1]) f]
      simp only [Bool.or_eq_true, contains_iff_mem, not_or] at hc
      constructor
      · rintro (hf | hf)
        · rcases List.mem_append.mp hf with ha | hk
          · exact Or.inl ha
          · simp only [List.mem_singleton] at hk
            exact Or.inr ⟨hk ▸ hc.1, kv, List.mem_cons_self kv rest, hk.symm⟩
        · exact Or.inr ⟨hf.1, by
            obtain ⟨g, hg, hgf⟩ := hf.2
            exact ⟨g, List.mem_cons_of_mem kv hg, hgf⟩⟩
      · rintro (hf | ⟨hns, g, hg, hgf⟩)
        · exact Or.inl (List.mem_append.mpr (Or.inl hf))
        · rcases List.mem_cons.mp hg with rfl | hg2
          · exact Or.inl (List.mem_append.mpr (Or.inr (by simp [hgf])))
          · exact Or.inr ⟨hns, g, hg2, hgf⟩

theorem innerFold_nodup (fr : List (String × Json)) :
    ∀ acc : List String, acc.Nodup →
    (fr.foldl (fun acc2 kv =>
        if schemaFields.contains kv.1 || acc2.contains kv.1 then acc2
        else acc2 ++ [kv.1]) acc).Nodup := by
  induction fr with
  | nil => intro acc h; exact h
  | cons kv rest ih =>
    intro acc h
    rw [List.foldl_cons]
    by_cases hc : (schemaFields.contains kv.1 || acc.contains kv.1) = true
    · rw [if_pos hc]
      exact ih acc h
    · rw [if_neg hc]
      refine ih (acc ++ [kv.1]) ?_
      simp only [Bool.or_eq_true, contains_iff_mem, not_or] at hc
      simp only [List.nodup_append, List.nodup_singleton]
      refine ⟨h, trivial, ?_⟩
      intro x hx
      simp only [List.mem_singleton]
      intro he
      exact hc.2 (he ▸ hx)

theorem mem_collectFields (frs : List (List (String × Json))) (f : String) :
    f ∈ collectFields frs ↔
      (¬ f ∈ schemaFields ∧ ∃ fr ∈ frs, ∃ kv ∈ fr, kv.1 = f) := by
  have main : ∀ (acc : List String),
      (f ∈ frs.foldl (fun acc fr =>
          fr.foldl (fun acc2 kv =>
            if schemaFields.contains kv.1 || acc2.contains kv.1 then acc2
            else acc2 ++ [kv.1]) acc) acc ↔
        f ∈ acc ∨ (¬ f ∈ schemaFields ∧ ∃ fr ∈ frs, ∃ kv ∈ fr, kv.1 = f)) := by
    induction frs with
    | nil => simp
    | cons fr rest ih =>
      intro acc
      rw [List.foldl_cons, ih, innerFold_mem]
      constructor
      · rintro ((hf | hf) | ⟨hns, g, hg, kv, hkv, hkvf⟩)
        · exact Or.inl hf
        · exact Or.inr ⟨hf.1, fr, List.mem_cons_self fr rest, hf.2⟩
        · exact Or.inr ⟨hns, g, List.mem_cons_of_mem fr hg, kv, hkv, hkvf⟩
      · rintro (hf | ⟨hns, g, hg, kv, hkv, hkvf⟩)
        · exact Or.inl (Or.inl hf)
        · rcases List.mem_cons.mp hg with rfl | hg2
          · exact Or.inl (Or.inr ⟨hns, kv, hkv, hkvf⟩)
          · exact Or.inr ⟨hns, g, hg2, kv, hkv, hkvf⟩
  have h := main []
  simpa [collectFields] using h

theorem collectFields_nodup (frs : List (List (String × Json))) :
    (collectFields frs).Nodup := by
  have main : ∀ (acc : List String), acc.Nodup →
      (frs.foldl (fun acc fr =>
          fr.foldl (fun acc2 kv =>
            if schemaFields.contains kv.1 || acc2.contains kv.1 then acc2
            else acc2 ++ [kv.1]) acc) acc).Nodup := by
    induction frs with
    | nil => intro acc h; exact h
    | cons fr rest ih =>
      intro acc h
      rw [List.foldl_cons]
      exact ih _ (innerFold_nodup fr acc h)
  exact main [] List.nodup_nil

theorem sortedFields_sorted (frs : List (List (String × Json))) :
    (sortedFields frs).Sorted (fun a b => strLe a b = true) :=
  List.sorted_insertionSort _ _

theorem sortedFields_nodup (frs : List (List (String × Json))) :
    (sortedFields frs).Nodup :=
  ((List.perm_insertionSort _ _).nodup_iff).mpr (collectFields_nodup frs)

theorem mem_sortedFields (frs : List (List (String × Json))) (f : String) :
    f ∈ sortedFields frs ↔
      (¬ f ∈ schemaFields ∧ ∃ fr ∈ frs, ∃ kv ∈ fr, kv.1 = f) := by
  rw [sortedFields]
  rw [(List.perm_insertionSort _ (collectFields frs)).mem_iff]
  exact mem_collectFields frs f

theorem sortedFields_perm_invariant (frs frs2 : List (List (String × Json)))
    (hp : List.Perm frs frs2) : sortedFields frs = sortedFields frs2 := by
  refine List.eq_of_perm_of_sorted ?_ (sortedFields_sorted frs) (sortedFields_sorted frs2)
  refine (List.perm_ext_iff_of_nodup (sortedFields_nodup frs) (sortedFields_nodup frs2)).mpr ?_
  intro f
  rw [mem_sortedFields, mem_sortedFields]
  constructor
  · rintro ⟨hns, fr, hfr, hkv⟩
    exact ⟨hns, fr, hp.mem_iff.mp hfr, hkv⟩
  · rintro ⟨hns, fr, hfr, hkv⟩
    exact ⟨hns, fr, hp.mem_iff.mpr hfr, hkv⟩


/-! ## Claim C4 -/

/-- C4: shape of `generate_structured_csv`: the output is a header row (the
id column name, then the lexicographically sorted, duplicate-free union of
all flattened field names across all results minus the JSON-Schema metadata
keys) followed by one data row per result; every data row has exactly
`1 + |fields|` cells with the identifier first; a missing or `None` value
renders as the empty string; and the column set depends only on the
multiset of results, so column order is identical for any permutation. -/
theorem C4_csv_structure (results : List CsvResult) (rid : Option String) :
    generate_structured_csv results rid =
      (recordIdHeader rid :: csvFields results) ::
        results.map (fun r =>
          r.record_id :: (csvFields results).map
            (fun f => cellStr (dictGet (flattenResult r.response) f))) ∧
    (csvFields results).Sorted (fun a b => strLe a b = true) ∧
    (csvFields results).Nodup ∧
    (∀ f, f ∈ csvFields results ↔
      (¬ f ∈ schemaFields ∧
        ∃ r ∈ results, ∃ kv ∈ flattenResult r.response, kv.1 = f)) ∧
    (∀ row ∈ (generate_structured_csv results rid).tail,
       row.length = 1 + (csvFields results).length) ∧
    cellStr none = "" ∧ cellStr (some Json.null) = "" ∧
    (∀ results2 : List CsvResult, List.Perm results results2 →
       csvFields results = csvFields results2) := by
  have ha : generate_structured_csv results rid =
      (recordIdHeader rid :: csvFields results) ::
        results.map (fun r =>
          r.record_id :: (csvFields results).map
            (fun f => cellStr (dictGet (flattenResult r.response) f))) := by
    simp only [generate_structured_csv, csvFields, sortedFields,
      List.map_map]
    rfl
  refine ⟨ha, sortedFields_sorted _, sortedFields_nodup _, ?_, ?_, rfl, rfl, ?_⟩
  · intro f
    rw [show csvFields results =
        sortedFields (results.map fun r => flattenResult r.response) from rfl,
      mem_sortedFields]
    constructor
    · rintro ⟨hns, fr, hfr, kv, hkv, h⟩
      obtain ⟨r, hr, rfl⟩ := List.mem_map.mp hfr
      exact ⟨hns, r, hr, kv, hkv, h⟩
    · rintro ⟨hns, r, hr, kv, hkv, h⟩
      exact ⟨hns, flattenResult r.response,
        List.mem_map_of_mem _ hr, kv, hkv, h⟩
  · intro row hrow
    rw [ha] at hrow
    simp only [List.tail_cons, List.mem_map] at hrow
    obtain ⟨r, _, rfl⟩ := hrow
    simp
    omega
  · intro results2 hp
    exact sortedFields_perm_invariant _ _ (hp.map _)

/-- C4 witness: the spec's concrete two-record scenario, plus column-order
invariance under swapping the two records. -/
theorem C4_witness :
    generate_structured_csv
        [{ record_id := "R1",
           response := Json.obj [("x", Json.obj [("y", Json.num "1")])] },
         { record_id := "R2", response := Json.obj [("z", Json.num "2")] }]
        (some "id") =
      [["id", "x.y", "z"], ["R1", "1", ""], ["R2", "", "2"]] ∧
    csvFields
        [{ record_id := "R1",
           response := Json.obj [("x", Json.obj [("y", Json.num "1")])] },
         { record_id := "R2", response := Json.obj [("z", Json.num "2")] }] =
      csvFields
        [{ record_id := "R2", response := Json.obj [("z", Json.num "2")] },
         { record_id := "R1",
           response := Json.obj [("x", Json.obj [("y", Json.num "1")])] }] := by
  constructor
  · rfl
  · exact (C4_csv_structure
      [{ record_id := "R1",
         response := Json.obj [("x", Json.obj [("y", Json.num "1")])] },
       { record_id := "R2", response := Json.obj [("z", Json.num "2")] }]
      (some "id")).2.2.2.2.2.2.2 _ (List.Perm.swap _ _ _)


/-! ## The row loop -/

theorem rowOuts_length (cfg : RunCfg) :
    ∀ (idx : Nat) (records : List Record),
      (rowOuts cfg idx records).length = records.length := by
  intro idx records
  induction records generalizing idx with
  | nil => rfl
  | cons r rest ih => simp [rowOuts, ih]

theorem rowOuts_get? (cfg : RunCfg) :
    ∀ (records : List Record) (idx i : Nat) (r : Record),
      records.get? i = some r →
      (rowOuts cfg idx records).get? i = some (processRow cfg (idx + i) r) := by
  intro records
  induction records with
  | nil => intro idx i r h; cases h
  | cons q rest ih =>
    intro idx i r h
    cases i with
    | zero =>
      cases h
      rfl
    | succ i =>
      rw [List.get?_cons_succ] at h
      have := ih (idx + 1) i r h
      rw [rowOuts, List.get?_cons_succ, this]
      congr 2
      omega

theorem loopAux_spec (cfg : RunCfg) :
    ∀ (records : List Record) (idx : Nat) (acc : LoopAcc),
      acc.current = idx →
      loopAux cfg idx acc records =
        { results := acc.results ++ (rowOuts cfg idx records).map (fun p => p.1),
          success_count := acc.success_count +
            (rowOuts cfg idx records).countP (fun p => p.2),
          error_count := acc.error_count +
            (rowOuts cfg idx records).countP (fun p => !p.2),
          current := idx + records.length } := by
  intro records
  induction records with
  | nil =>
    intro idx acc hc
    simp [loopAux, rowOuts, ← hc]
  | cons r rest ih =>
    intro idx acc hc
    rw [loopAux, ih (idx + 1) (stepRow cfg idx acc r) rfl]
    simp only [stepRow, rowOuts, List.map_cons, List.countP_cons, List.length_cons]
    cases hker : (processRow cfg idx r).2 <;>
      simp [hker, LoopAcc.mk.injEq, List.append_assoc] <;> omega

theorem processRecords_spec (cfg : RunCfg) (records : List Record) :
    processRecords cfg records =
      { results := (rowOuts cfg 0 records).map (fun p => p.1),
        success_count := (rowOuts cfg 0 records).countP (fun p => p.2),
        error_count := (rowOuts cfg 0 records).countP (fun p => !p.2),
        current := records.length } := by
  have h := loopAux_spec cfg records 0 initAcc rfl
  simpa [processRecords, initAcc] using h

theorem loopTrace_length (cfg : RunCfg) :
    ∀ (records : List Record) (idx : Nat) (acc : LoopAcc),
      (loopTrace cfg idx acc records).length = records.length + 1 := by
  intro records
  induction records with
  | nil => intro idx acc; rfl
  | cons r rest ih => intro idx acc; simp [loopTrace, ih]

theorem loopTrace_head (cfg : RunCfg) (records : List Record) (idx : Nat)
    (acc : LoopAcc) : (loopTrace cfg idx acc records).head? = some acc := by
  cases records <;> rfl

theorem loopTrace_chain (cfg : RunCfg) :
    ∀ (records : List Record) (idx : Nat) (acc : LoopAcc),
      acc.current = idx →
      List.Chain' (fun a b => b.current = a.current + 1 ∧
        a.success_count ≤ b.success_count ∧ a.error_count ≤ b.error_count)
        (loopTrace cfg idx acc records) := by
  intro records
  induction records with
  | nil => intro idx acc _; simp [loopTrace]
  | cons r rest ih =>
    intro idx acc hc
    rw [loopTrace]
    rw [List.chain'_cons']
    constructor
    · intro b hb
      rw [loopTrace_head] at hb
      cases hb
      refine ⟨by simp [stepRow, hc], ?_, ?_⟩ <;> simp [stepRow]
    · exact ih (idx + 1) (stepRow cfg idx acc r) rfl

theorem loopTrace_mem (cfg : RunCfg) :
    ∀ (records : List Record) (idx : Nat) (acc : LoopAcc),
      acc.current = idx →
      acc.success_count + acc.error_count ≤ acc.current →
      ∀ s ∈ loopTrace cfg idx acc records,
        s.current ≤ idx + records.length ∧
        s.success_count + s.error_count ≤ s.current := by
  intro records
  induction records with
  | nil =>
    intro idx acc hc hs s hmem
    simp [loopTrace] at hmem
    subst hmem
    exact ⟨by omega, hs⟩
  | cons r rest ih =>
    intro idx acc hc hs s hmem
    rw [loopTrace] at hmem
    rcases List.mem_cons.mp hmem with rfl | hmem2
    · exact ⟨by simp [hc], hs⟩
    · have hstep : (stepRow cfg idx acc r).success_count +
          (stepRow cfg idx acc r).error_count ≤ (stepRow cfg idx acc r).current := by
        cases hker : (processRow cfg idx r).2 <;> simp [stepRow, hker] <;> omega
      have := ih (idx + 1) (stepRow cfg idx acc r) rfl hstep s hmem2
      refine ⟨by have h1 := this.1; simp at h1 ⊢; omega, this.2⟩

/-! ## Claim C1 -/

/-- C1: per-row failure recovery in the batch row loop: every queried row
yields exactly one result row (in row order); a response whose extracted
text does not parse as JSON is recorded as `{raw_response: <text>}` and
counted as an error; an exception in the per-row path is recorded as
`{error: <message>}` and counted as an error, and processing continues
(the loop's outcome for the remaining rows is unchanged); the success and
error counters count exactly the succeeding and failing rows. -/
theorem C1_per_row_recovery (cfg : RunCfg) (records : List Record) :
    (processRecords cfg records).results.length = records.length ∧
    (processRecords cfg records).results =
      (rowOuts cfg 0 records).map (fun p => p.1) ∧
    (∀ i r, records.get? i = some r →
       (rowOuts cfg 0 records).get? i = some (processRow cfg i r)) ∧
    (processRecords cfg records).success_count =
      (rowOuts cfg 0 records).countP (fun p => p.2) ∧
    (processRecords cfg records).error_count =
      (rowOuts cfg 0 records).countP (fun p => !p.2) ∧
    (∀ idx record text, cfg.generate (renderedPrompt cfg record) = GenResult.ok text →
       loads (extract_json_from_llm_response text) = none →
       processRow cfg idx record =
         ({ record_id := resolveRecordId cfg.record_id_field record idx,
            batch_name := cfg.batch_name,
            response := Json.obj [("raw_response", Json.str text)] }, false)) ∧
    (∀ idx record text v, cfg.generate (renderedPrompt cfg record) = GenResult.ok text →
       loads (extract_json_from_llm_response text) = some v →
       processRow cfg idx record =
         ({ record_id := resolveRecordId cfg.record_id_field record idx,
            batch_name := cfg.batch_name, response := v }, true)) ∧
    (∀ idx record msg, cfg.generate (renderedPrompt cfg record) = GenResult.exn msg →
       processRow cfg idx record =
         ({ record_id := exceptRecordId record idx,
            batch_name := cfg.batch_name,
            response := Json.obj [("error", Json.str msg)] }, false)) := by
  refine ⟨?_, ?_, ?_, ?_, ?_, ?_, ?_, ?_⟩
  · rw [processRecords_spec]
    simp [rowOuts_length]
  · rw [processRecords_spec]
  · intro i r h
    have := rowOuts_get? cfg records 0 i r h
    simpa using this
  · rw [processRecords_spec]
  · rw [processRecords_spec]
  · intro idx record text hg hp
    simp only [processRow, hg, hp]
  · intro idx record text v hg hp
    simp only [processRow, hg, hp]
  · intro idx record msg hg
    simp only [processRow, hg]


/-- C1 witness: a two-record batch where every model call raises, yielding
exactly one result row per record with the error row recorded as
`{error: boom}`. -/
theorem C1_witness :
    (processRecords cfgExnW [[("Id", "r1")], [("Id", "r2")]]).results.length = 2 ∧
    processRow cfgExnW 0 [("Id", "r1")] =
      ({ record_id := "r1", batch_name := "B",
         response := Json.obj [("error", Json.str "boom")] }, false) := by
  constructor
  · exact (C1_per_row_recovery cfgExnW [[("Id", "r1")], [("Id", "r2")]]).1
  · exact (C1_per_row_recovery cfgExnW
      [[("Id", "r1")], [("Id", "r2")]]).2.2.2.2.2.2.2 0 [("Id", "r1")] "boom" rfl

/-! ## Claim C2 -/

/-- C2: tracker invariants of one execution's row loop: the observable
state trace has one entry per processed row after the initial state;
consecutive states advance `current` by exactly one, in row order, with
monotonically non-decreasing `success_count` and `error_count`; and every
state satisfies `current ≤ total` (the number of queried rows) and
`success_count + error_count ≤ current`. -/
theorem C2_progress_invariants (cfg : RunCfg) (records : List Record) :
    (execTrace cfg records).length = records.length + 1 ∧
    List.Chain' (fun a b => b.current = a.current + 1 ∧
      a.success_count ≤ b.success_count ∧ a.error_count ≤ b.error_count)
      (execTrace cfg records) ∧
    (∀ s ∈ execTrace cfg records,
      s.current ≤ records.length ∧
      s.success_count + s.error_count ≤ s.current) := by
  refine ⟨loopTrace_length cfg records 0 initAcc, ?_, ?_⟩
  · exact loopTrace_chain cfg records 0 initAcc rfl
  · intro s hs
    have := loopTrace_mem cfg records 0 initAcc rfl (by simp [initAcc]) s hs
    simpa using this

/-- C2 witness: the one-record trace for a parse-succeeding model
response: two states, and the final state satisfies the bounds. -/
theorem C2_witness :
    (execTrace cfgOkW [[("Id", "r1")]]).length = 2 ∧
    stateOkW.current ≤ 1 ∧
    stateOkW.success_count + stateOkW.error_count ≤ stateOkW.current := by
  refine ⟨(C2_progress_invariants cfgOkW [[("Id", "r1")]]).1, ?_, ?_⟩
  · have hmem : stateOkW ∈ execTrace cfgOkW [[("Id", "r1")]] := by
      have htr : execTrace cfgOkW [[("Id", "r1")]] = [initAcc, stateOkW] := rfl
      rw [htr]
      exact List.mem_cons_of_mem _ (List.mem_cons_self _ _)
    have h := (C2_progress_invariants cfgOkW [[("Id", "r1")]]).2.2 _ hmem
    simpa using h.1
  · have hmem : stateOkW ∈ execTrace cfgOkW [[("Id", "r1")]] := by
      have htr : execTrace cfgOkW [[("Id", "r1")]] = [initAcc, stateOkW] := rfl
      rw [htr]
      exact List.mem_cons_of_mem _ (List.mem_cons_self _ _)
    exact ((C2_progress_invariants cfgOkW [[("Id", "r1")]]).2.2 _ hmem).2


/-! ## Behavior of `run_batch_execution` -/

theorem run_batch_none {env : Env} (h : env.batch = none) :
    run_batch_execution env =
      { exec := failedExec "Batch not found", results := [],
        history := env.prior_history, query_fields := [] } := by
  simp only [run_batch_execution, h]

theorem run_batch_no_prompt {env : Env} {batch : BatchRow}
    (hb : env.batch = some batch) (hp : env.prompt = none) :
    run_batch_execution env =
      { exec := failedExec "No prompt configuration found", results := [],
        history := none, query_fields := [] } := by
  simp only [run_batch_execution, hb, hp]

theorem run_batch_success {env : Env} {batch : BatchRow} {prompt : PromptCfg}
    (hb : env.batch = some batch) (hp : env.prompt = some prompt) :
    run_batch_execution env =
      { exec := { current := (processRecords
                    (runCfgOf batch prompt (resolvedRecordIdField batch env.config_row)
                      env.generate) env.records).current,
                  total := env.records.length,
                  success_count := (processRecords
                    (runCfgOf batch prompt (resolvedRecordIdField batch env.config_row)
                      env.generate) env.records).success_count,
                  error_count := (processRecords
                    (runCfgOf batch prompt (resolvedRecordIdField batch env.config_row)
                      env.generate) env.records).error_count,
                  complete := true, success := true, error := none },
        results := (processRecords
          (runCfgOf batch prompt (resolvedRecordIdField batch env.config_row)
            env.generate) env.records).results,
        history := some
          { batch_name := batch.name, dataset_name := batch.dataset_name,
            total_records := env.records.length,
            success_count := (processRecords
              (runCfgOf batch prompt (resolvedRecordIdField batch env.config_row)
                env.generate) env.records).success_count,
            error_count := (processRecords
              (runCfgOf batch prompt (resolvedRecordIdField batch env.config_row)
                env.generate) env.records).error_count,
            execution_time := env.elapsed,
            csv_rows := generate_structured_csv
              ((processRecords
                  (runCfgOf batch prompt (resolvedRecordIdField batch env.config_row)
                    env.generate) env.records).results.map
                (fun r => { record_id := r.record_id, response := r.response }))
              (resolvedRecordIdField batch env.config_row) },
        query_fields := resolveQueryFields (extract_variables prompt.template)
          env.available_fields (resolvedRecordIdField batch env.config_row) } := by
  simp only [run_batch_execution, hb, hp]

/-! ## Claim C5 -/

/-- C5 (amended): execution history is at most one row per batch; once the
batch row is found, the prior history row is deleted before the prompt
configuration is checked, so a run that fails from a missing prompt
configuration leaves *no* history row (the prior row is gone); only a
batch-not-found failure leaves the prior row untouched; a successful run
writes exactly one new row carrying the new totals, elapsed time, and the
generated CSV. -/
theorem C5_history_replacement (env : Env) :
    (env.batch = none → (run_batch_execution env).history = env.prior_history) ∧
    (∀ batch, env.batch = some batch → env.prompt = none →
       (run_batch_execution env).history = none) ∧
    (∀ batch prompt, env.batch = some batch → env.prompt = some prompt →
       (run_batch_execution env).history = some
         { batch_name := batch.name, dataset_name := batch.dataset_name,
           total_records := env.records.length,
           success_count := (processRecords
             (runCfgOf batch prompt (resolvedRecordIdField batch env.config_row)
               env.generate) env.records).success_count,
           error_count := (processRecords
             (runCfgOf batch prompt (resolvedRecordIdField batch env.config_row)
               env.generate) env.records).error_count,
           execution_time := env.elapsed,
           csv_rows := generate_structured_csv
             ((processRecords
                 (runCfgOf batch prompt (resolvedRecordIdField batch env.config_row)
                   env.generate) env.records).results.map
               (fun r => { record_id := r.record_id, response := r.response }))
             (resolvedRecordIdField batch env.config_row) }) := by
  refine ⟨?_, ?_, ?_⟩
  · intro h
    rw [run_batch_none h]
  · intro batch hb hp
    rw [run_batch_no_prompt hb hp]
  · intro batch prompt hb hp
    rw [run_batch_success hb hp]

/-- C5 counterexample to the claim as stated: a run that fails because the
prompts row is missing does *not* leave the previously stored history row
unchanged — the row was already deleted when the batch row was loaded, so
the batch is left with no history row at all. -/
theorem C5_counterexample :
    envNoPromptW.prior_history = some histW ∧
    (run_batch_execution envNoPromptW).exec.success = false ∧
    (run_batch_execution envNoPromptW).history = none ∧
    (none : Option HistoryRow) ≠ some histW := by
  refine ⟨rfl, rfl, rfl, by simp⟩

/-- C5 witness: the three branches at concrete environments — missing batch
preserves prior history, missing prompt erases it, and a successful empty
run writes exactly one fresh row. -/
theorem C5_witness :
    (run_batch_execution envNoBatchW).history = some histW ∧
    (run_batch_execution envNoPromptW).history = none ∧
    (run_batch_execution envOkW).history = some
      { batch_name := "B", dataset_name := "DS", total_records := 0,
        success_count := 0, error_count := 0, execution_time := 7,
        csv_rows := [["Record ID"]] } := by
  refine ⟨?_, ?_, ?_⟩
  · exact ((C5_history_replacement envNoBatchW).1 rfl).trans rfl
  · exact (C5_history_replacement envNoPromptW).2.1 batchW rfl rfl
  · exact ((C5_history_replacement envOkW).2.2 batchW promptW rfl rfl).trans rfl

/-! ## Claim C6 -/

/-- C6 (amended): a missing batch row or a missing prompt configuration
terminates the execution as failed (`complete = true`, `success = false`)
with a descriptive message, before any row is processed and with
`current = 0` and `total = 0`; but a missing dataset configuration is *not*
fatal — the run proceeds (and completes with `success = true`) with no
configured record-identifier field. -/
theorem C6_config_errors (env : Env) :
    (env.batch = none →
       (run_batch_execution env).exec = failedExec "Batch not found" ∧
       (run_batch_execution env).results = []) ∧
    (∀ batch, env.batch = some batch → env.prompt = none →
       (run_batch_execution env).exec = failedExec "No prompt configuration found" ∧
       (run_batch_execution env).results = []) ∧
    (∀ m, (failedExec m).current = 0 ∧ (failedExec m).total = 0 ∧
       (failedExec m).complete = true ∧ (failedExec m).success = false ∧
       (failedExec m).error = some m) ∧
    (∀ batch prompt, env.batch = some batch → env.prompt = some prompt →
       batch.dataset_config_id = none →
       (run_batch_execution env).exec.complete = true ∧
       (run_batch_execution env).exec.success = true) := by
  refine ⟨?_, ?_, ?_, ?_⟩
  · intro h
    rw [run_batch_none h]
    exact ⟨rfl, rfl⟩
  · intro batch hb hp
    rw [run_batch_no_prompt hb hp]
    exact ⟨rfl, rfl⟩
  · intro m
    exact ⟨rfl, rfl, rfl, rfl, rfl⟩
  · intro batch prompt hb hp _
    rw [run_batch_success hb hp]
    exact ⟨rfl, rfl⟩

/-- C6 counterexample to the claim as stated: an execution whose batch has
no dataset configuration (`dataset_config_id` empty, so no dataset
configuration is resolvable) does not terminate as failed — it runs to
completion with `success = true`. -/
theorem C6_counterexample :
    batchW.dataset_config_id = none ∧
    envOkW.batch = some batchW ∧
    (run_batch_execution envOkW).exec =
      { current := 0, total := 0, success_count := 0, error_count := 0,
        complete := true, success := true, error := none } ∧
    (true : Bool) ≠ false := by
  refine ⟨rfl, rfl, rfl, by simp⟩

/-- C6 witness: the missing-batch and missing-prompt branches at concrete
environments, each failed with zero progress, plus the tolerated missing
dataset configuration. -/
theorem C6_witness :
    (run_batch_execution envNoBatchW).exec = failedExec "Batch not found" ∧
    (run_batch_execution envNoPromptW).exec = failedExec "No prompt configuration found" ∧
    (failedExec "Batch not found").current = 0 ∧
    (failedExec "Batch not found").total = 0 ∧
    (run_batch_execution envOkW).exec.success = true := by
  refine ⟨((C6_config_errors envNoBatchW).1 rfl).1,
    ((C6_config_errors envNoPromptW).2.1 batchW rfl rfl).1,
    ((C6_config_errors envNoBatchW).2.2.1 "Batch not found").1,
    ((C6_config_errors envNoBatchW).2.2.1 "Batch not found").2.1,
    ((C6_config_errors envOkW).2.2.2 batchW promptW rfl rfl rfl).2⟩


/-! ## Claim C7 -/

theorem commonFold_mem (av : List String) :
    ∀ (cs qf : List String) (f : String),
      (f ∈ cs.foldl (fun qf c =>
          if av.contains c && !qf.contains c then qf ++ [c] else qf) qf ↔
        f ∈ qf ∨ (f ∈ cs ∧ f ∈ av)) := by
  intro cs
  induction cs with
  | nil => simp
  | cons c rest ih =>
    intro qf f
    rw [List.foldl_cons]
    by_cases hc : (av.contains c && !qf.contains c) = true
    · rw [if_pos hc]
      rw [ih]
      simp only [Bool.and_eq_true, Bool.not_eq_true', contains_iff_mem] at hc
      have hcav : c ∈ av := hc.1
      constructor
      · rintro (hf | hf)
        · rcases List.mem_append.mp hf with h1 | h1
          · exact Or.inl h1
          · simp only [List.mem_singleton] at h1
            exact Or.inr ⟨h1 ▸ List.mem_cons_self c rest, h1 ▸ hcav⟩
        · exact Or.inr ⟨List.mem_cons_of_mem c hf.1, hf.2⟩
      · rintro (hf | ⟨hm, hav⟩)
        · exact Or.inl (List.mem_append.mpr (Or.inl hf))
        · rcases List.mem_cons.mp hm with rfl | h2
          · exact Or.inl (List.mem_append.mpr (Or.inr (by simp)))
          · exact Or.inr ⟨h2, hav⟩
    · rw [if_neg hc]
      rw [ih]
      simp only [Bool.and_eq_true, Bool.not_eq_true', contains_iff_mem,
        not_and, Bool.not_eq_false] at hc
      constructor
      · rintro (hf | hf)
        · exact Or.inl hf
        · exact Or.inr ⟨List.mem_cons_of_mem c hf.1, hf.2⟩
      · rintro (hf | ⟨hm, hav⟩)
        · exact Or.inl hf
        · rcases List.mem_cons.mp hm with rfl | h2
          · exact Or.inl (hc hav)
          · exact Or.inr ⟨h2, hav⟩

theorem commonFold_no_av (av : List String) :
    ∀ (cs qf : List String), (∀ c ∈ cs, ¬ c ∈ av) →
      cs.foldl (fun qf c =>
        if av.contains c && !qf.contains c then qf ++ [c] else qf) qf = qf := by
  intro cs
  induction cs with
  | nil => intro qf _; rfl
  | cons c rest ih =>
    intro qf h
    rw [List.foldl_cons, if_neg, ih _ (fun x hx => h x (List.mem_cons_of_mem c hx))]
    simp only [Bool.and_eq_true, not_and, contains_iff_mem]
    intro hcav
    exact absurd hcav (h c (List.mem_cons_self c rest))

/-- C7 (amended): the queried field set is the template's placeholder names
intersected with the dataset's available fields, *plus* the common ID/Name
fields `Name`, `Title`, `Id`, `RecordId`, `ClaimNumber` whenever they are
available (deduplicated), plus the truthy configured record-identifier
field if not already present; if no template field and no common field
resolves, the query proceeds with the identifier field alone; and the
orchestrator queries exactly this field set. -/
theorem C7_query_field_resolution :
    (∀ (tf av : List String) (rid : Option String) (f : String),
       f ∈ resolveQueryFields tf av rid ↔
         ((f ∈ tf ∧ f ∈ av) ∨ (f ∈ commonIdFields ∧ f ∈ av) ∨
          (rid = some f ∧ f ≠ ""))) ∧
    (∀ (tf av : List String) (r : String),
       (∀ f ∈ tf, ¬ f ∈ av) → (∀ c ∈ commonIdFields, ¬ c ∈ av) → r ≠ "" →
       resolveQueryFields tf av (some r) = [r]) ∧
    (∀ (env : Env) (batch : BatchRow) (prompt : PromptCfg),
       env.batch = some batch → env.prompt = some prompt →
       (run_batch_execution env).query_fields =
         resolveQueryFields (extract_variables prompt.template)
           env.available_fields (resolvedRecordIdField batch env.config_row)) := by
  refine ⟨?_, ?_, ?_⟩
  · intro tf av rid f
    cases rid with
    | none =>
      have h0 : resolveQueryFields tf av none = commonIdFields.foldl
          (fun qf g => if av.contains g && !qf.contains g then qf ++ [g] else qf)
          (tf.filter (fun g => av.contains g)) := rfl
      rw [h0, commonFold_mem]
      simp only [List.mem_filter, contains_iff_mem]
      constructor
      · rintro (⟨h1, h2⟩ | h)
        · exact Or.inl ⟨h1, h2⟩
        · exact Or.inr (Or.inl h)
      · rintro (⟨h1, h2⟩ | h | ⟨h, -⟩)
        · exact Or.inl ⟨h1, by simpa [contains_iff_mem] using h2⟩
        · exact Or.inr h
        · cases h
    | some r =>
      have h0 : resolveQueryFields tf av (some r) =
          (if r ≠ "" && !(List.contains (commonIdFields.foldl
              (fun qf g => if av.contains g && !qf.contains g then qf ++ [g] else qf)
              (tf.filter (fun g => av.contains g))) r) then
            (commonIdFields.foldl
              (fun qf g => if av.contains g && !qf.contains g then qf ++ [g] else qf)
              (tf.filter (fun g => av.contains g))) ++ [r]
          else commonIdFields.foldl
              (fun qf g => if av.contains g && !qf.contains g then qf ++ [g] else qf)
              (tf.filter (fun g => av.contains g))) := rfl
      have hq : ∀ g : String, g ∈ commonIdFields.foldl
          (fun qf c => if av.contains c && !qf.contains c then qf ++ [c] else qf)
          (tf.filter (fun c => av.contains c)) ↔
          ((g ∈ tf ∧ g ∈ av) ∨ (g ∈ commonIdFields ∧ g ∈ av)) := by
        intro g
        rw [commonFold_mem]
        simp only [List.mem_filter, contains_iff_mem]
      rw [h0]
      by_cases hcond : (r ≠ "" && !(List.contains (commonIdFields.foldl
          (fun qf g => if av.contains g && !qf.contains g then qf ++ [g] else qf)
          (tf.filter (fun g => av.contains g))) r)) = true
      · rw [if_pos hcond]
        simp only [Bool.and_eq_true, Bool.not_eq_true', decide_eq_true_eq,
          contains_iff_mem] at hcond
        constructor
        · intro hf
          rcases List.mem_append.mp hf with h1 | h1
          · rcases (hq f).mp h1 with h2 | h2
            · exact Or.inl h2
            · exact Or.inr (Or.inl h2)
          · simp only [List.mem_singleton] at h1
            subst h1
            exact Or.inr (Or.inr ⟨rfl, hcond.1⟩)
        · rintro (h2 | h2 | ⟨heq, hne⟩)
          · exact List.mem_append.mpr (Or.inl ((hq f).mpr (Or.inl h2)))
          · exact List.mem_append.mpr (Or.inl ((hq f).mpr (Or.inr h2)))
          · injection heq with heq2
            subst heq2
            exact List.mem_append.mpr (Or.inr (by simp))
      · rw [if_neg hcond]
        have hcond2 : r = "" ∨ r ∈ commonIdFields.foldl
            (fun qf g => if av.contains g && !qf.contains g then qf ++ [g] else qf)
            (tf.filter (fun g => av.contains g)) := by
          by_cases hre : r = ""
          · exact Or.inl hre
          · right
            by_contra hmem
            apply hcond
            simp only [Bool.and_eq_true, Bool.not_eq_true', decide_eq_true_eq,
              contains_iff_mem]
            exact ⟨hre, by simpa [contains_iff_mem] using hmem⟩
        rw [hq f]
        constructor
        · rintro (h2 | h2)
          · exact Or.inl h2
          · exact Or.inr (Or.inl h2)
        · rintro (h2 | h2 | ⟨heq, hne⟩)
          · exact Or.inl h2
          · exact Or.inr h2
          · injection heq with heq2
            subst heq2
            rcases hcond2 with hre | hmem
            · exact absurd hre hne
            · exact (hq r).mp hmem
  · intro tf av r htf hcm hr
    have hfilter : tf.filter (fun f => av.contains f) = [] := by
      rw [List.filter_eq_nil_iff]
      intro f hf
      simpa [contains_iff_mem] using htf f hf
    have h0 : resolveQueryFields tf av (some r) =
        (if r ≠ "" && !(List.contains (commonIdFields.foldl
            (fun qf f => if av.contains f && !qf.contains f then qf ++ [f] else qf)
            (tf.filter (fun f => av.contains f))) r) then
          (commonIdFields.foldl
            (fun qf f => if av.contains f && !qf.contains f then qf ++ [f] else qf)
            (tf.filter (fun f => av.contains f))) ++ [r]
        else commonIdFields.foldl
            (fun qf f => if av.contains f && !qf.contains f then qf ++ [f] else qf)
            (tf.filter (fun f => av.contains f))) := rfl
    rw [h0, hfilter, commonFold_no_av av commonIdFields [] hcm]
    simp [hr]
  · intro env batch prompt hb hp
    rw [run_batch_success hb hp]

/-- C7 counterexample: the claim says the query fields are just the resolved
template fields plus the identifier, but the source force-includes the common
ID fields (here `Title`, available on the dataset) even though the template
never references them. -/
theorem C7_counterexample :
    resolveQueryFields [] ["Title"] (some "K") = ["Title", "K"] ∧
    resolveQueryFieldsClaim [] ["Title"] (some "K") = ["K"] ∧
    (["Title", "K"] : List String) ≠ ["K"] :=
  ⟨rfl, rfl, by decide⟩

theorem pyOrS_ne (v : Option String) (d : String) (hd : d ≠ "") :
    pyOrS v d ≠ "" := by
  cases v with
  | none => exact hd
  | some s =>
    by_cases hs : s = ""
    · simpa [pyOrS, hs] using hd
    · simp [pyOrS, hs]

theorem record_placeholder_ne (s : String) : ("Record_" ++ s) ≠ "" := by
  intro h
  have h2 := congrArg String.data h
  simp only [String.data_append] at h2
  have h3 : ("Record_".data : List Char) = [] := (List.append_eq_nil.mp h2).1
  exact absurd h3 (by decide)

theorem fallbackId_ne (record : Record) (idx : Nat) :
    fallbackId record idx ≠ "" :=
  pyOrS_ne _ _ (pyOrS_ne _ _ (pyOrS_ne _ _ (pyOrS_ne _ _
    (record_placeholder_ne _))))

theorem C7_witness :
    ("K" ∈ resolveQueryFields ["Title"] ["Title", "K"] (some "K")) ∧
    resolveQueryFields ["X"] [] (some "K") = ["K"] ∧
    (run_batch_execution envOkW).query_fields =
      resolveQueryFields (extract_variables promptW.template)
        envOkW.available_fields (resolvedRecordIdField batchW envOkW.config_row) :=
  ⟨(C7_query_field_resolution.1 ["Title"] ["Title", "K"] (some "K") "K").mpr
      (Or.inr (Or.inr ⟨rfl, by decide⟩)),
   C7_query_field_resolution.2.1 ["X"] [] "K" (by decide) (by decide) (by decide),
   C7_query_field_resolution.2.2 envOkW batchW promptW rfl rfl⟩

/-- C8 (amended): with a truthy configured identifier field the row
identifier is that field's value, or directly the synthesized
`Record_<idx>` when it is absent or empty — the `Id`/`id`/`Name`/`name`
chain is skipped; only with no (or an empty) configured field does the
chain apply; in the except branch only `Id`/`id`/`Record_<idx>` are tried.
In every case the identifier is nonempty, and the per-row result carries
exactly these identifiers. -/
theorem C8_record_id_resolution :
    (∀ (record : Record) (idx : Nat) (r : String), r ≠ "" →
       resolveRecordId (some r) record idx =
         pyOrS (recordGet record r) ("Record_" ++ toString idx)) ∧
    (∀ (record : Record) (idx : Nat),
       resolveRecordId none record idx = fallbackId record idx ∧
       resolveRecordId (some "") record idx = fallbackId record idx) ∧
    (∀ (rid : Option String) (record : Record) (idx : Nat),
       resolveRecordId rid record idx ≠ "") ∧
    (∀ (record : Record) (idx : Nat), exceptRecordId record idx ≠ "") ∧
    (∀ (cfg : RunCfg) (idx : Nat) (record : Record),
       (processRow cfg idx record).1.record_id =
         (match cfg.generate (renderedPrompt cfg record) with
          | GenResult.exn _ => exceptRecordId record idx
          | GenResult.ok _ =>
              resolveRecordId cfg.record_id_field record idx)) := by
  refine ⟨?_, ?_, ?_, ?_, ?_⟩
  · intro record idx r hr
    simp [resolveRecordId, hr]
  · intro record idx
    exact ⟨rfl, by simp [resolveRecordId]⟩
  · intro rid record idx
    cases rid with
    | none => exact fallbackId_ne record idx
    | some r =>
      by_cases hr : r = ""
      · simpa [resolveRecordId, hr] using fallbackId_ne record idx
      · simpa [resolveRecordId, hr] using
          pyOrS_ne (recordGet record r) _ (record_placeholder_ne _)
  · intro record idx
    exact pyOrS_ne _ _ (pyOrS_ne _ _ (record_placeholder_ne _))
  · intro cfg idx record
    cases h : cfg.generate (renderedPrompt cfg record) with
    | exn msg => simp [processRow, h]
    | ok text =>
      cases h2 : loads (extract_json_from_llm_response text) with
      | none => simp [processRow, h, h2]
      | some v => simp [processRow, h, h2]

/-- C8 counterexample: with configured field `K` missing from the record,
the source synthesizes `Record_0` even though the record has an `Id`; the
claim's fallback chain would return that `Id` value `005`. -/
theorem C8_counterexample :
    resolveRecordId (some "K") [("Id", "005")] 0 = "Record_0" ∧
    resolveRecordIdClaim (some "K") [("Id", "005")] 0 = "005" ∧
    ("Record_0" : String) ≠ "005" :=
  ⟨rfl, rfl, by decide⟩

theorem C8_witness :
    resolveRecordId (some "K") [] 3 =
      pyOrS (recordGet [] "K") ("Record_" ++ toString 3) ∧
    resolveRecordId none [] 0 = fallbackId [] 0 ∧
    resolveRecordId (some "K") [] 1 ≠ "" ∧
    exceptRecordId [] 2 ≠ "" ∧
    (processRow cfgOkW 0 []).1.record_id =
      resolveRecordId cfgOkW.record_id_field [] 0 :=
  ⟨C8_record_id_resolution.1 [] 3 "K" (by decide),
   (C8_record_id_resolution.2.1 [] 0).1,
   C8_record_id_resolution.2.2.1 (some "K") [] 1,
   C8_record_id_resolution.2.2.2.1 [] 2,
   C8_record_id_resolution.2.2.2.2 cfgOkW 0 []⟩

/-- C9 (amended): the progress lookup consults only the in-memory map — it
reports not-found exactly when no in-memory entry has the execution id,
regardless of any durable `execution_status` row; the durable fallback
exists only in the batch-status lookup, which is keyed by batch id and
reports not-found exactly when neither the memory map nor the persisted
rows mention the batch. -/
theorem C9_progress_lookup :
    (∀ (mem : List (String × ExecEntry)) (execution_id : String),
       get_batch_progress mem execution_id = none ↔
         ∀ p ∈ mem, p.1 ≠ execution_id) ∧
    (∀ (mem : List (String × ExecEntry)) (persisted : List StatusRow)
       (batch_id : String),
       get_batch_status mem persisted batch_id = StatusResp.notFound ↔
         ((∀ p ∈ mem, p.2.batch_id ≠ batch_id) ∧
          (∀ r ∈ persisted, r.batch_id ≠ batch_id))) := by
  constructor
  · intro mem execution_id
    simp [get_batch_progress, List.find?_eq_none]
  · intro mem persisted batch_id
    constructor
    · intro h
      cases hm : List.find? (fun p => p.2.batch_id = batch_id) mem with
      | some p => simp [get_batch_status, hm] at h
      | none =>
        cases hp : List.find? (fun r => r.batch_id = batch_id) persisted with
        | some row => simp [get_batch_status, hm, hp] at h
        | none =>
          constructor
          · intro p hpm
            simpa using List.find?_eq_none.mp hm p hpm
          · intro r hrp
            simpa using List.find?_eq_none.mp hp r hrp
    · rintro ⟨h1, h2⟩
      have hm : List.find? (fun p => p.2.batch_id = batch_id) mem = none :=
        List.find?_eq_none.mpr (fun p hp => by simpa using h1 p hp)
      have hp : List.find? (fun r => r.batch_id = batch_id) persisted = none :=
        List.find?_eq_none.mpr (fun r hr => by simpa using h2 r hr)
      simp [get_batch_status, hm, hp]

/-- C9 counterexample: the durable mirror holds a row for execution `e1`,
yet the progress endpoint reports not-found because the in-memory map is
empty — there is no fallback; the claim's lookup would find it. -/
theorem C9_counterexample :
    get_batch_progress ([] : List (String × ExecEntry)) "e1" = none ∧
    getBatchProgressClaim [] [⟨"b1", "e1"⟩] "e1" = true :=
  ⟨rfl, rfl⟩

theorem C9_witness :
    get_batch_progress [("e2", ⟨"b2"⟩)] "e9" = none ∧
    get_batch_status ([] : List (String × ExecEntry))
      ([] : List StatusRow) "b9" = StatusResp.notFound :=
  ⟨(C9_progress_lookup.1 [("e2", ⟨"b2"⟩)] "e9").mpr (by decide),
   (C9_progress_lookup.2 [] [] "b9").mpr ⟨by simp, by simp⟩⟩

theorem findallVarsF_nil (f : Nat) : findallVarsF f [] = [] := by
  cases f <;> rfl

theorem findallVarsF_match (f : Nat) (name rest : List Char)
    (hne : name ≠ []) (hnb : ∀ c ∈ name, c ≠ '}') :
    findallVarsF (f + 1) ('{' :: '{' :: (name ++ '}' :: '}' :: rest)) =
      pyStrip ⟨name⟩ :: findallVarsF f rest := by
  have htake : (name ++ '}' :: '}' :: rest).takeWhile
      (fun c => c ≠ '}') = name := by
    rw [takeWhile_append_all (fun c hc => by simpa using hnb c hc),
      takeWhile_nil_of_head rfl, List.append_nil]
  have h0 : findallVarsF (f + 1) ('{' :: '{' :: (name ++ '}' :: '}' :: rest)) =
      (match (name ++ '}' :: '}' :: rest).drop
          (((name ++ '}' :: '}' :: rest).takeWhile (fun c => c ≠ '}')).length) with
       | '}' :: '}' :: rest2 =>
         if (name ++ '}' :: '}' :: rest).takeWhile (fun c => c ≠ '}') = [] then
           findallVarsF f ('{' :: (name ++ '}' :: '}' :: rest))
         else
           pyStrip ⟨(name ++ '}' :: '}' :: rest).takeWhile (fun c => c ≠ '}')⟩ ::
             findallVarsF f rest2
       | _ => findallVarsF f ('{' :: (name ++ '}' :: '}' :: rest))) := rfl
  rw [h0, htake, List.drop_left]
  simp only [if_neg hne]

theorem findallVarsF_cons_ne (f : Nat) (c : Char) (l : List Char)
    (hc : c ≠ '{') :
    findallVarsF (f + 1) (c :: l) = findallVarsF f l := by
  have h0 : findallVarsF (f + 1) (c :: l) =
      (match c :: l with
       | '{' :: '{' :: rest =>
         (match rest.drop ((rest.takeWhile (fun x => x ≠ '}')).length) with
          | '}' :: '}' :: rest2 =>
            if rest.takeWhile (fun x => x ≠ '}') = [] then
              findallVarsF f ('{' :: rest)
            else
              pyStrip ⟨rest.takeWhile (fun x => x ≠ '}')⟩ ::
                findallVarsF f rest2
          | _ => findallVarsF f ('{' :: rest))
       | _ :: rest => findallVarsF f rest
       | [] => []) := rfl
  rw [h0]
  split
  · rename_i rest heq
    exact absurd (List.head_eq_of_cons_eq heq) hc
  · rename_i x rest heq
    rw [List.tail_eq_of_cons_eq heq]
  · rename_i heq
    exact absurd heq (List.cons_ne_nil c l)

theorem findallVarsF_prose (p0 : List Char) : ∀ (f : Nat) (rest : List Char),
    (∀ c ∈ p0, c ≠ '{') →
    findallVarsF (p0.length + f) (p0 ++ rest) = findallVarsF f rest := by
  induction p0 with
  | nil =>
    intro f rest _
    simp
  | cons c p0' ih =>
    intro f rest h
    have h1 : (c :: p0').length + f = (p0'.length + f) + 1 := by
      simp only [List.length_cons]
      omega
    rw [h1, List.cons_append,
      findallVarsF_cons_ne (p0'.length + f) c (p0' ++ rest) (h c (by simp))]
    exact ih f rest (fun x hx => h x (by simp [hx]))

theorem findall_render (segs : List (List Char × List Char)) :
    ∀ (p0 : List Char) (f : Nat),
      (∀ c ∈ p0, c ≠ '{') →
      (∀ s ∈ segs, s.1 ≠ [] ∧ (∀ c ∈ s.1, c ≠ '}') ∧ (∀ c ∈ s.2, c ≠ '{')) →
      (p0 ++ renderSegs segs).length + 1 ≤ f →
      findallVarsF f (p0 ++ renderSegs segs) =
        segs.map (fun s => pyStrip ⟨s.1⟩) := by
  induction segs with
  | nil =>
    intro p0 f hp _ hf
    obtain ⟨g, hg⟩ : ∃ g, f = p0.length + g :=
      ⟨f - p0.length, by simp at hf; omega⟩
    subst hg
    rw [show renderSegs [] = ([] : List Char) from rfl,
      findallVarsF_prose p0 g [] hp, findallVarsF_nil]
    simp
  | cons s rest ih =>
    intro p0 f hp hs hf
    obtain ⟨nm, pr⟩ := s
    have hseg := hs (nm, pr) (List.mem_cons_self _ _)
    have hrest : ∀ s ∈ rest, s.1 ≠ [] ∧ (∀ c ∈ s.1, c ≠ '}') ∧
        (∀ c ∈ s.2, c ≠ '{') :=
      fun s hs2 => hs s (List.mem_cons_of_mem _ hs2)
    have hr : renderSegs ((nm, pr) :: rest) =
        '{' :: '{' :: (nm ++ '}' :: '}' :: (pr ++ renderSegs rest)) := rfl
    have hL : (p0 ++ renderSegs ((nm, pr) :: rest)).length =
        p0.length + nm.length + pr.length + (renderSegs rest).length + 4 := by
      rw [hr]
      simp only [List.length_append, List.length_cons]
      omega
    obtain ⟨g, hg, hgle⟩ : ∃ g, f = p0.length + (g + 1) ∧
        (pr ++ renderSegs rest).length + 1 ≤ g := by
      have h2 : (pr ++ renderSegs rest).length =
          pr.length + (renderSegs rest).length := by simp
      exact ⟨f - p0.length - 1, by omega, by omega⟩
    subst hg
    rw [findallVarsF_prose p0 (g + 1) _ hp, hr,
      findallVarsF_match g nm (pr ++ renderSegs rest) hseg.1 hseg.2.1,
      ih pr g hseg.2.2 hrest hgle]
    rfl

/-- C10 (amended): for every template that decomposes into prose and
placeholders — an optional leading prose piece, then any sequence of
placeholders `\x7b\x7bname\x7d\x7d` each followed by a prose piece, where
every name is nonempty and free of `\x7d` and every prose piece is free of
`\x7b` — variable extraction returns exactly one entry per placeholder
occurrence, in template order, each capture stripped of surrounding
whitespace; in particular repeated occurrences of the same placeholder are
kept, not deduplicated. -/
theorem C10_variable_extraction :
    ∀ (p0 : List Char) (segs : List (List Char × List Char)),
      (∀ c ∈ p0, c ≠ '{') →
      (∀ s ∈ segs, s.1 ≠ [] ∧ (∀ c ∈ s.1, c ≠ '}') ∧ (∀ c ∈ s.2, c ≠ '{')) →
      extract_variables ⟨p0 ++ renderSegs segs⟩ =
        segs.map (fun s => pyStrip ⟨s.1⟩) := by
  intro p0 segs hp hs
  have h1 : extract_variables ⟨p0 ++ renderSegs segs⟩ =
      findallVarsF ((p0 ++ renderSegs segs).length + 1)
        (p0 ++ renderSegs segs) := rfl
  rw [h1]
  exact findall_render segs p0 _ hp hs (Nat.le_refl _)

/-- C10 counterexample: on the template `\x7b\x7ba\x7d\x7d \x7b\x7ba\x7d\x7d`
the extractor returns `a` twice; the claim says each distinct name appears
exactly once. -/
theorem C10_counterexample :
    extract_variables "\x7b\x7ba\x7d\x7d \x7b\x7ba\x7d\x7d" = ["a", "a"] ∧
    (["a", "a"] : List String) ≠ ["a"] :=
  ⟨rfl, by decide⟩

theorem C10_witness :
    extract_variables ⟨['q', ' '] ++ renderSegs
        [([' ', 'a', ' '], [' ', 'x']), (['b', 'c'], []), ([' ', 'a', ' '], ['!'])]⟩ =
      [pyStrip ⟨[' ', 'a', ' ']⟩, pyStrip ⟨['b', 'c']⟩, pyStrip ⟨[' ', 'a', ' ']⟩] :=
  C10_variable_extraction ['q', ' ']
    [([' ', 'a', ' '], [' ', 'x']), (['b', 'c'], []), ([' ', 'a', ' '], ['!'])]
    (by decide) (by decide)

end ClinicalGenius
